import Mathlib

/-
Verification of the natural-language specification of this QCoDeS driver
repository against a shallow embedding of its three source files:

  * qcodes/dataset/dond/sweeps.py          (LinSweep)
  * qcodes/instrument_drivers/Minicircuits/USBHIDMixin.py
  * qcodes/instrument_drivers/QDevil/QDevil_QDAC.py (QDac driver)

Machine floats are modelled by exact rationals, epoch times by rationals,
device transport by a reply stream plus a log of written command strings.
-/

set_option autoImplicit false

namespace QcodesSpec

/-! ### Python-dict helpers

Python `dict`s (`_slopes`, `_assigned_fgs`, `_assigned_triggers`,
`_syncoutputs`) are modelled as insertion-ordered association lists:
`d[k] = v` updates an existing key in place and otherwise appends, `d.pop(k)`
removes the key, iteration (`items()`, `values()`) follows list order. -/

def dictLookup {α : Type} (d : List (Nat × α)) (k : Nat) : Option α :=
  (d.find? (fun p => p.1 = k)).map (fun p => p.2)

def dictInsert {α : Type} (d : List (Nat × α)) (k : Nat) (v : α) : List (Nat × α) :=
  if (d.find? (fun p => p.1 = k)).isSome then
    d.map (fun p => if p.1 = k then (k, v) else p)
  else
    d ++ [(k, v)]

def dictPop {α : Type} (d : List (Nat × α)) (k : Nat) : List (Nat × α) :=
  d.filter (fun p => p.1 ≠ k)

def updFn {α : Type} (f : Nat → α) (k : Nat) (v : α) : Nat → α :=
  fun x => if x = k then v else f x

/-- Python `int()` truncation toward zero, on exact rationals. -/
def pyInt (q : ℚ) : Int :=
  if q < 0 then -(⌊-q⌋) else ⌊q⌋

/-! ### Sweep descriptors (qcodes/dataset/dond/sweeps.py)

`LinSweep.get_setpoints` returns `np.linspace(start, stop, num_points)`.
`np.linspace` with `endpoint=True` computes `start + i * step` for
`i = 0 .. num-1` with `step = (stop - start)/(num - 1)` and then overwrites
the final entry with `stop` exactly. -/

def linspace (start stop : ℚ) (num : Nat) : List ℚ :=
  if num = 0 then []
  else if num = 1 then [start]
  else ((List.range num).map
          (fun i : Nat => start + (i : ℚ) * (stop - start) / ((num : ℚ) - 1))).set
        (num - 1) stop

structure LinSweep where
  start : ℚ
  stop : ℚ
  num_points : Nat
  delay : ℚ := 0

def LinSweep.get_setpoints (s : LinSweep) : List ℚ :=
  linspace s.start s.stop s.num_points

/-! ### USB HID mixin (qcodes/instrument_drivers/Minicircuits/USBHIDMixin.py)

`send_hid` packs `struct.pack("B{data_len}s{pad_len}x", feature_id, data)`
with `pad_len = packet_size - data_len`, raising when `pad_len < 0`; bytes
are modelled as `List Nat`.  `ask_hid` sends and then polls the one-slot
mailbox; its outcome is modelled by the mailbox's eventual content
(`none` = the poll loop timed out). -/

def sendLenMsg : String := "Length of data exceeds packet_size B"

def send_hid (packet_size feature_id : Nat) (data : List Nat) :
    Except String (List Nat) :=
  let data_len := data.length
  let pad_len : Int := (packet_size : Int) - (data_len : Int)
  if pad_len < 0 then .error sendLenMsg
  else .ok (feature_id :: (data ++ List.replicate (packet_size - data_len) 0))

def ask_hid (packet_size feature_id : Nat) (data : List Nat)
    (response : Option (List Nat)) : Except String (List Nat) :=
  match send_hid packet_size feature_id data with
  | .error e => .error e
  | .ok _ =>
    match response with
    | none => .error "TimeoutError"
    | some r => .ok (r.drop 1)

end QcodesSpec

namespace QcodesSpec

/-! ### Sweep theorems -/

theorem linspace_eq_map (start stop : ℚ) (num : Nat) (h : 2 ≤ num) :
    linspace start stop num =
      (List.range num).map
        (fun i : Nat => start + (i : ℚ) * (stop - start) / ((num : ℚ) - 1)) := by
  have h0 : num ≠ 0 := by omega
  have h1 : num ≠ 1 := by omega
  unfold linspace
  rw [if_neg h0, if_neg h1]
  have hd : ((num : ℚ) - 1) ≠ 0 := by
    have h2 : (2 : ℚ) ≤ (num : ℚ) := by exact_mod_cast h
    intro hc
    nlinarith
  apply List.ext_getElem
  · simp
  · intro i hi hj
    simp only [List.length_set, List.length_map, List.length_range] at hi
    rw [List.getElem_set]
    by_cases hc : num - 1 = i
    · rw [if_pos hc]
      simp only [List.getElem_map, List.getElem_range]
      rw [← hc]
      have hcast : ((num - 1 : Nat) : ℚ) = (num : ℚ) - 1 := by
        have h1le : 1 ≤ num := by omega
        push_cast [Nat.cast_sub h1le]
        ring
      rw [hcast]
      field_simp
    · rw [if_neg hc]

/-- C9: for n ≥ 2 the linear sweep has exactly n points, its first point is
`start`, its last point is `stop`, the sequence is monotone in the direction
of `stop - start`, and `num_points` reports n. -/
theorem c9_linsweep_setpoints (s : LinSweep) (h : 2 ≤ s.num_points) :
    s.get_setpoints.length = s.num_points ∧
    s.get_setpoints.getD 0 0 = s.start ∧
    s.get_setpoints.getD (s.num_points - 1) 0 = s.stop ∧
    (∀ i j : Nat, i ≤ j → j < s.get_setpoints.length →
      (s.start ≤ s.stop → s.get_setpoints.getD i 0 ≤ s.get_setpoints.getD j 0) ∧
      (s.stop ≤ s.start → s.get_setpoints.getD j 0 ≤ s.get_setpoints.getD i 0)) := by
  have hmap := linspace_eq_map s.start s.stop s.num_points h
  have hlen : s.get_setpoints.length = s.num_points := by
    unfold LinSweep.get_setpoints
    rw [hmap]
    simp
  have hd : (0 : ℚ) < (s.num_points : ℚ) - 1 := by
    have h2 : (2 : ℚ) ≤ (s.num_points : ℚ) := by exact_mod_cast h
    linarith
  have hget : ∀ i : Nat, i < s.num_points → s.get_setpoints.getD i 0 =
      s.start + (i : ℚ) * (s.stop - s.start) / ((s.num_points : ℚ) - 1) := by
    intro i hi
    unfold LinSweep.get_setpoints
    rw [hmap, List.getD_eq_getElem?_getD, List.getElem?_map]
    simp [List.getElem?_range, hi]
  refine ⟨hlen, ?_, ?_, ?_⟩
  · rw [hget 0 (by omega)]
    norm_num
  · rw [hget (s.num_points - 1) (by omega)]
    have hcast : ((s.num_points - 1 : Nat) : ℚ) = (s.num_points : ℚ) - 1 := by
      have h1le : 1 ≤ s.num_points := by omega
      push_cast [Nat.cast_sub h1le]
      ring
    rw [hcast]
    field_simp
  · intro i j hij hjlen
    rw [hlen] at hjlen
    have hi : i < s.num_points := lt_of_le_of_lt hij hjlen
    have hij' : (i : ℚ) ≤ (j : ℚ) := by exact_mod_cast hij
    rw [hget i hi, hget j hjlen]
    constructor
    · intro hdir
      have hc : 0 ≤ (s.stop - s.start) / ((s.num_points : ℚ) - 1) :=
        div_nonneg (by linarith) (le_of_lt hd)
      rw [mul_div_assoc, mul_div_assoc]
      nlinarith
    · intro hdir
      have hc : (s.stop - s.start) / ((s.num_points : ℚ) - 1) ≤ 0 :=
        div_nonpos_of_nonpos_of_nonneg (by linarith) (le_of_lt hd)
      rw [mul_div_assoc, mul_div_assoc]
      nlinarith

theorem c9_linsweep_setpoints_witness :
    2 ≤ (3 : Nat) ∧
    (LinSweep.mk 0 1 3 0).get_setpoints.length = 3 ∧
    (LinSweep.mk 0 1 3 0).get_setpoints.getD 0 0 = 0 ∧
    (LinSweep.mk 0 1 3 0).get_setpoints.getD 2 0 = 1 :=
  ⟨by norm_num,
   (c9_linsweep_setpoints (LinSweep.mk 0 1 3 0) (by norm_num)).1,
   (c9_linsweep_setpoints (LinSweep.mk 0 1 3 0) (by norm_num)).2.1,
   (c9_linsweep_setpoints (LinSweep.mk 0 1 3 0) (by norm_num)).2.2.1⟩

/-! ### HID theorems -/

/-- C8, counterexample: with `packet_size = 2` a payload of 2 bytes
(= `packet_size`, not `packet_size - 1`) is accepted, and the packet sent is
3 bytes (`packet_size + 1`), not `packet_size`. -/
theorem c8_send_hid_counterexample :
    send_hid 2 1 [7, 8] = .ok [1, 7, 8] ∧
    (send_hid 2 1 [7, 8] ≠ .error sendLenMsg) ∧
    [1, 7, 8].length = 2 + 1 := by
  refine ⟨rfl, ?_, rfl⟩
  intro hc
  simp [send_hid] at hc

/-- C8, amended: `send_hid` accepts a payload of at most `packet_size` bytes
and raises for longer payloads; the accepted packet is exactly
`packet_size + 1` bytes — one feature-id byte, the payload, and zero padding;
`ask_hid` returns the reply with the leading feature-id byte stripped. -/
theorem c8_send_hid_amended (packet_size feature_id : Nat) (data : List Nat)
    (response : List Nat) :
    (data.length ≤ packet_size →
      send_hid packet_size feature_id data =
        .ok (feature_id :: (data ++ List.replicate (packet_size - data.length) 0)) ∧
      (feature_id :: (data ++ List.replicate (packet_size - data.length) 0)).length
        = packet_size + 1 ∧
      ask_hid packet_size feature_id data (some response) = .ok (response.drop 1)) ∧
    (packet_size < data.length →
      send_hid packet_size feature_id data = .error sendLenMsg) := by
  constructor
  · intro hle
    have hpad : ¬ ((packet_size : Int) - (data.length : Int) < 0) := by
      simp only [not_lt, sub_nonneg]
      exact_mod_cast hle
    refine ⟨?_, ?_, ?_⟩
    · simp [send_hid, hpad]
    · simp only [List.length_cons, List.length_append, List.length_replicate]
      omega
    · simp [ask_hid, send_hid, hpad]
  · intro hgt
    have hpad : ((packet_size : Int) - (data.length : Int) < 0) := by
      have : (packet_size : Int) < (data.length : Int) := by exact_mod_cast hgt
      omega
    simp [send_hid, hpad]

theorem c8_send_hid_amended_witness :
    send_hid 2 1 [7] = .ok [1, 7, 0] ∧
    send_hid 2 1 [7, 8, 9] = .error sendLenMsg ∧
    ask_hid 2 1 [7] (some [5, 6, 4]) = .ok [6, 4] :=
  ⟨by
      have := (c8_send_hid_amended 2 1 [7] [5, 6, 4]).1 (by norm_num)
      simpa using this.1,
   (c8_send_hid_amended 2 1 [7, 8, 9] []).2 (by norm_num),
   by
      have := (c8_send_hid_amended 2 1 [7] [5, 6, 4]).1 (by norm_num)
      simpa using this.2.2⟩

end QcodesSpec

namespace QcodesSpec

/-! ### QDac driver (qcodes/instrument_drivers/QDevil/QDevil_QDAC.py)

The driver's session state: per-channel caches and validators, the generator
/ trigger / sync bookkeeping dicts, and the serial transport.  The transport
is modelled by an unbounded stream `replies` of pending reply lines together
with a cursor `readPos`; `writes` logs every command string passed to
`QDac.write`, and `sleeps` logs every `time.sleep` performed while waiting
for a generator.  `vlive` is the voltage the device itself would report on a
`v.get()` query (an `ask`, which bypasses `QDac.write`); `devGen` is the
generator number the device would report for a `wav <chan>` query. -/

/-- Mode enum: combined voltage range (`v`: 0 = high, 1 = low) and current
range (`i`: 0 = low, 1 = high), as in the driver's `Mode` namedtuples. -/
inductive Mode where
  | vhigh_ihigh
  | vhigh_ilow
  | vlow_ilow
deriving DecidableEq, Repr

def Mode.v : Mode → Nat
  | .vhigh_ihigh => 0
  | .vhigh_ilow => 0
  | .vlow_ilow => 1

def Mode.i : Mode → Nat
  | .vhigh_ihigh => 1
  | .vhigh_ilow => 0
  | .vlow_ilow => 0

/-- Book-keeping record for one function generator (`class Generator`):
generator number and expected end time; a fresh `Generator(fg)` carries the
far-future default end time 9.9e9. -/
structure Generator where
  fg : Nat
  t_end : ℚ
deriving DecidableEq, Repr

def tEndDefault : ℚ := 9900000000

inductive PyErr where
  | valueError (msg : String)
  | runtimeError (msg : String)
  | keyError (msg : String)
deriving DecidableEq, Repr

structure QDacState where
  num_chans : Nat
  mode_force : Bool
  vlive : Nat → ℚ
  vcache : Nat → ℚ
  modeCache : Nat → Mode
  vvalsMin : Nat → ℚ
  vvalsMax : Nat → ℚ
  vrangesMin : Nat → Nat → ℚ
  vrangesMax : Nat → Nat → ℚ
  devGen : Nat → Nat
  slopes : List (Nat × ℚ)
  assigned_fgs : List (Nat × Generator)
  assigned_triggers : List (Nat × Nat)
  syncoutputs : List (Nat × Nat)
  syncCache : Nat → Option Nat
  sync_delayCache : Nat → ℚ
  sync_durationCache : Nat → ℚ
  replies : Nat → String
  readPos : Nat
  write_response : String
  writes : List String
  warnings : List String
  sleeps : List ℚ

/-! #### Number formatting for command strings

`fmt6` models Python `'{:.6f}'.format(x)` (fixed six decimals; the rounding
of ties is immaterial to every claim).  `fmtPy` models `str(x)` /
`'{}'.format(x)` for a float whose value is an exactly representable
decimal, as produced for the voltages in this driver; it prints the shortest
decimal expansion with at least one fractional digit. -/

def padZeros (n : Nat) (s : String) : String :=
  String.mk (List.replicate (n - s.length) '0') ++ s

def fmt6 (q : ℚ) : String :=
  let scaled : Int := ⌊q * 1000000 + 1 / 2⌋
  let m := scaled.natAbs
  (if scaled < 0 then "-" else "") ++ toString (m / 1000000) ++ "." ++
    padZeros 6 (toString (m % 1000000))

/-- Smallest extra decimal count (fuel-capped) making `q * 10 ^ k` integral. -/
def decExp : ℚ → Nat → Nat
  | _, 0 => 0
  | q, fuel + 1 => if q.den = 1 then 0 else 1 + decExp (q * 10) fuel

def fmtPy (q : ℚ) : String :=
  let a : ℚ := |q|
  let k := 1 + decExp (a * 10) 16
  let scaled : Nat := (⌊a * (10 : ℚ) ^ k⌋).toNat
  (if q < 0 then "-" else "") ++ toString (scaled / 10 ^ k) ++ "." ++
    padZeros k (toString (scaled % 10 ^ k))

/-! #### Command strings -/

/-- Command `set <ch> <v>;wav <ch> 0 0 0` used (with this ordering) both by
`_setslope('Inf')` and by the generator-preemption path of
`_get_functiongenerator` to force a channel into direct (DC) mode. -/
def dcModeCmd (ch : Nat) (v : ℚ) : String :=
  "set " ++ toString ch ++ " " ++ fmt6 v ++ ";wav " ++ toString ch ++ " 0 0 0"

def wavCmd (ch fg : Nat) (amplitude vstart : ℚ) : String :=
  "wav " ++ toString ch ++ " " ++ toString fg ++ " " ++ fmtPy amplitude ++ " " ++
    fmtPy vstart

/-- Waveform 4 is `Waveform.staircase`. -/
def funCmd (fg : Nat) (delay nsteps repetitions : Int) (trigger : Nat) : String :=
  "fun " ++ toString fg ++ " 4 " ++ toString delay ++ " " ++ toString nsteps ++
    " " ++ toString repetitions ++ " " ++ toString trigger

def trigCmd (t : Nat) : String :=
  "trig " ++ toString t

def synCmd (sync fg : Nat) (delay duration : Int) : String :=
  "syn " ++ toString sync ++ " " ++ toString fg ++ " " ++ toString delay ++ " " ++
    toString duration

def synOffCmd (sync : Nat) : String :=
  "syn " ++ toString sync ++ " 0 0 0"

def wavQueryCmd (ch : Nat) : String :=
  "wav " ++ toString ch

def curCmd (ch irange : Nat) : String :=
  "cur " ++ toString ch ++ " " ++ toString irange

def volCmd (ch vrange : Nat) : String :=
  "vol " ++ toString ch ++ " " ++ toString vrange

def wavSetCmd (ch gen : Nat) (amplitude v : ℚ) : String :=
  "wav " ++ toString ch ++ " " ++ toString gen ++ " " ++ fmt6 amplitude ++ " " ++
    fmt6 v

def setCmd (ch : Nat) (v : ℚ) : String :=
  "set " ++ toString ch ++ " " ++ fmt6 v

/-- Python `msg[:-1]` (used to strip the trailing semicolon). -/
def stripLast (s : String) : String :=
  String.mk s.data.dropLast

/-! #### Error and warning messages -/

def chanNumMsg : String := "Channel number must be 1-num_chans."

def overlapMsg : String := "Channel cannot be in both slow_chans and fast_chans!"

def chanVoltLenMsg : String := "Number of channels and number of voltages inconsistent!"

def startLenMsg : String := "Number of start voltages do not match number of channels!"

def validatorMsg : String := "value is invalid: must be between Min and Max inclusive"

def minEmptyMsg : String := "min() arg is an empty sequence"

def keyErrMsg : String := "KeyError"

def fgExhaustMsg : String :=
  "Trying to ramp more channels than there are generators available. " ++
  "Please insert delays allowing channels to finish ramping before trying " ++
  "to ramp other channels, or reduce the number of ramped channels. " ++
  "Or increase fgs_timeout."

def nonZeroVoltageMsg : String :=
  "Please set the voltage to zero before changing the voltage range in " ++
  "order to avoid jumps or spikes. Or set mode_force=True to allow voltage " ++
  "range change for non-zero voltages."

def clipWarnMsg : String :=
  "Voltage is outside the bounds of the new voltage range and is therefore clipped."

def fgWaitWarnMsg : String :=
  "Trying to ramp more channels than there are generators. " ++
  "Waiting for ramp generator to be released"

/-! #### The line protocol (`QDac.write`)

`QDac.write` sends the command and then loops `cmd.count(';') + 1` times
reading one reply line per iteration into `_write_response`, so only the
last sub-command's reply is retained. -/

def countSemi (cmd : String) : Nat :=
  (cmd.data.filter (fun c => c = ';')).length

/-- One iteration of the reply-draining loop: `self._write_response =
self.visa_handle.read()`. -/
def drainReplies : Nat → QDacState → QDacState
  | 0, st => st
  | n + 1, st =>
      drainReplies n
        { st with write_response := st.replies st.readPos, readPos := st.readPos + 1 }

def QDacState.write (st : QDacState) (cmd : String) : QDacState :=
  drainReplies (countSemi cmd + 1) { st with writes := st.writes ++ [cmd] }

/-! #### Channel parameter helpers -/

/-- A `v.get()` query (`ask`-path, not `QDac.write`): returns the device's
live voltage and refreshes the parameter cache. -/
def vGet (st : QDacState) (ch : Nat) : QDacState × ℚ :=
  ({ st with vcache := updFn st.vcache ch (st.vlive ch) }, st.vlive ch)

def getVList : List Nat → QDacState → QDacState × List ℚ
  | [], st => (st, [])
  | ch :: rest, st =>
      let pr := vGet st ch
      let pr2 := getVList rest pr.1
      (pr2.1, pr.2 :: pr2.2)

/-- QCoDeS `Numbers` validator attached to `chan.v`: raise unless
`Min ≤ v ≤ Max`.  Iterating `channellist[i]` / `voltages[i]` past the end of
`voltages` is Python's IndexError. -/
def validateVolts (st : QDacState) : List Nat → List ℚ → Except PyErr Unit
  | [], _ => .ok ()
  | _ :: _, [] => .error (.keyError keyErrMsg)
  | ch :: chs, v :: vs =>
      if v < st.vvalsMin ch ∨ st.vvalsMax ch < v then .error (.valueError validatorMsg)
      else validateVolts st chs vs

/-! #### The generator pool (`QDac._get_functiongenerator`) -/

def fgsTimeout : ℚ := 2

def freeFgs (d : List (Nat × Generator)) : List Nat :=
  (List.range' 1 8).filter (fun n => !((d.map (fun p => p.2.fg)).contains n))

def freeTrigs (triggers : List (Nat × Nat)) : List Nat :=
  (List.range' 1 9).filter (fun n => !((triggers.map (fun p => p.2)).contains n))

def qMin : List ℚ → ℚ
  | [] => 0
  | x :: xs => xs.foldl min x

def setTEnd1 (ch : Nat) (tE : ℚ) (d : List (Nat × Generator)) : List (Nat × Generator) :=
  d.map (fun p => if p.1 = ch then (p.1, { p.2 with t_end := tE }) else p)

/-- Embedding of `_get_functiongenerator(chan)`: with fewer than 8 assigned
generators, assign the smallest free one; otherwise preempt the assigned
generator with the earliest end time provided it lies within `fgs_timeout`
(2 s) of now, sleeping until that end time when it is still in the future
and forcing the displaced channel into DC mode; with no reclaimable
generator, raise the resource-exhaustion `RuntimeError`.  Returns the
assigned generator number. -/
def getFunctiongenerator (st : QDacState) (chan : Nat) (now : ℚ) :
    QDacState × Except PyErr Nat :=
  if st.assigned_fgs.length < 8 then
    match (freeFgs st.assigned_fgs).head? with
    | some fg =>
        ({ st with assigned_fgs := dictInsert st.assigned_fgs chan ⟨fg, tEndDefault⟩ },
         .ok fg)
    | none => (st, .error (.valueError minEmptyMsg))
  else
    let fgs_t_end_ok :=
      (st.assigned_fgs.filter (fun p => p.2.t_end < now + fgsTimeout)).map
        (fun p => p.2.t_end)
    let first_ready_t := qMin fgs_t_end_ok
    let available_fgs_chans :=
      if 0 < fgs_t_end_ok.length then
        (st.assigned_fgs.filter (fun p => p.2.t_end = first_ready_t)).map
          (fun p => p.1)
      else []
    let st :=
      if 0 < fgs_t_end_ok.length ∧ now < first_ready_t then
        { st with warnings := st.warnings ++ [fgWaitWarnMsg],
                  sleeps := st.sleeps ++ [first_ready_t - now] }
      else st
    match available_fgs_chans with
    | oldchan :: _ =>
        let fg := ((dictLookup st.assigned_fgs oldchan).getD ⟨0, 0⟩).fg
        let st :=
          { st with assigned_fgs :=
              dictInsert (dictPop st.assigned_fgs oldchan) chan ⟨fg, tEndDefault⟩ }
        (st.write (dcModeCmd oldchan (st.vcache oldchan)), .ok fg)
    | [] => (st, .error (.runtimeError fgExhaustMsg))

/-! #### Sync output bookkeeping (`_setsync`, and the `sync.set` wrapper) -/

def _setsync (st : QDacState) (chan sync : Nat) : QDacState × Except PyErr Unit :=
  if chan < 1 ∨ st.num_chans < chan then (st, .error (.valueError chanNumMsg))
  else if sync = 0 then
    let oldsync := st.syncCache chan
    let st := { st with syncoutputs := dictPop st.syncoutputs chan }
    match oldsync with
    | some o => (st.write (synOffCmd o), .ok ())
    | none => (st, .ok ())
  else if (dictLookup st.syncoutputs chan).isSome then
    let oldsync := st.syncCache chan
    let st :=
      if oldsync ≠ some sync then
        match oldsync with
        | some o => st.write (synOffCmd o)
        | none => st.write ("syn None 0 0 0")
      else st
    ({ st with syncoutputs := dictInsert st.syncoutputs chan sync }, .ok ())
  else if (st.syncoutputs.map (fun p => p.2)).contains sync then
    let oldchans := (st.syncoutputs.filter (fun p => p.2 = sync)).map (fun p => p.1)
    let st := { st with syncoutputs := dictPop st.syncoutputs (oldchans.headD 0) }
    let st := st.write (synOffCmd sync)
    ({ st with syncoutputs := dictInsert st.syncoutputs chan sync }, .ok ())
  else
    ({ st with syncoutputs := dictInsert st.syncoutputs chan sync }, .ok ())

/-- QCoDeS parameter wrapper `chan.sync.set(v)`: run the set_cmd and update
the parameter cache. -/
def syncSet (st : QDacState) (chan sync : Nat) : QDacState × Except PyErr Unit :=
  match _setsync st chan sync with
  | (st, .ok ()) => ({ st with syncCache := updFn st.syncCache chan (some sync) }, .ok ())
  | e => e

/-! #### Slope bookkeeping (`QDac._setslope`) -/

/-- Embedding of `_setslope(chan, slope)`; `none` stands for `'Inf'`.
On `'Inf'` the channel is forced to DC mode, the assigned generator's
`t_end` is zeroed, and `self._assigned_triggers.pop(fg)` is attempted —
but `fg` there is the `Generator` OBJECT (`self._assigned_fgs[chan]`), never
one of the integer keys of `_assigned_triggers`, so the pop always raises
`KeyError`, which the surrounding `except KeyError: pass` swallows: the
trigger binding survives.  Then any sync output is removed and the slope
entry dropped. -/
def _setslope (st : QDacState) (chan : Nat) (slope : Option ℚ) :
    QDacState × Except PyErr Unit :=
  if chan < 1 ∨ st.num_chans < chan then (st, .error (.valueError chanNumMsg))
  else
    match slope with
    | none =>
        let pr := vGet st chan
        let st := pr.1.write (dcModeCmd chan pr.2)
        let st := { st with assigned_fgs := setTEnd1 chan 0 st.assigned_fgs }
        let pr2 :=
          if (dictLookup st.syncoutputs chan).isSome then syncSet st chan 0
          else (st, .ok ())
        match pr2 with
        | (st, .ok ()) => ({ st with slopes := dictPop st.slopes chan }, .ok ())
        | e => e
    | some s => ({ st with slopes := dictInsert st.slopes chan s }, .ok ())

/-! #### Mode / range transition (`QDac._set_mode`) -/

def maxZeroVoltage : Nat → ℚ
  | 0 => 20 / 1000000
  | _ => 3 / 1000000

/-- The inner helper `_clipto(value, min_, max_)` of `_set_mode`, logging the
clipping warning. -/
def clipto (st : QDacState) (value min_ max_ : ℚ) : QDacState × ℚ :=
  if max_ < value then ({ st with warnings := st.warnings ++ [clipWarnMsg] }, max_)
  else if value < min_ then ({ st with warnings := st.warnings ++ [clipWarnMsg] }, min_)
  else (st, value)

/-- Embedding of `_set_mode(chan, new_mode)`.  The `wav <chan>` device query
inside `wav_or_set_msg` goes through `QDac.write`; its parsed reply (the
generator attached to the channel) is modelled by `devGen`. -/
def _set_mode (st : QDacState) (chan : Nat) (new_mode : Mode) :
    QDacState × Except PyErr Unit :=
  let old_mode := st.modeCache chan
  let new_vrange := new_mode.v
  let old_vrange := old_mode.v
  let new_irange := new_mode.i
  let old_irange := old_mode.i
  if old_mode = new_mode then (st, .ok ())
  else if new_irange ≠ old_irange ∧ new_vrange = 0 ∧ old_vrange = 0 then
    (st.write (curCmd chan new_irange), .ok ())
  else
    let message :=
      if new_irange < old_irange ∧ old_vrange < new_vrange then
        curCmd chan new_irange ++ ";"
      else ""
    let pr := vGet st chan
    let st := pr.1
    let old_voltage := pr.2
    if st.mode_force = false ∧ maxZeroVoltage old_vrange < |old_voltage| then
      (st, .error (.valueError nonZeroVoltageMsg))
    else
      let pr2 := clipto st old_voltage (st.vrangesMin chan new_vrange)
                   (st.vrangesMax chan new_vrange)
      let st := pr2.1
      let new_voltage := pr2.2
      let message := message ++ volCmd chan new_vrange ++ ";"
      let st := st.write (wavQueryCmd chan)
      let gen := st.devGen chan
      let message := message ++
        (if 0 < gen then wavSetCmd chan gen 0 new_voltage else setCmd chan new_voltage)
      let message := message ++
        (if old_irange < new_irange ∧ new_vrange < old_vrange then
          ";" ++ curCmd chan new_irange
        else "")
      let st :=
        { st with
            vvalsMin := updFn st.vvalsMin chan (st.vrangesMin chan new_vrange),
            vvalsMax := updFn st.vvalsMax chan (st.vrangesMax chan new_vrange),
            vcache := updFn st.vcache chan new_voltage }
      (st.write message, .ok ())

end QcodesSpec

namespace QcodesSpec

/-! #### Ramp orchestration (`QDac.ramp_voltages_2d`, `QDac.ramp_voltages`) -/

/-- `step_length_ms = int(step_length*1000)`, overridden to 1 when
`step_length < 0.001` (with a warning). -/
def stepLenMs (step_length : ℚ) : Int :=
  if step_length < mkRat 1 1000 then 1 else pyInt (step_length * 1000)

/-- The per-channel loop `for chan in channellist: ...` that validates the
channel number and acquires a function generator for channels lacking one. -/
def acquireFgs (now : ℚ) : List Nat → QDacState → QDacState × Except PyErr Unit
  | [], st => (st, .ok ())
  | ch :: rest, st =>
      if ch < 1 ∨ st.num_chans < ch then (st, .error (.valueError chanNumMsg))
      else if (dictLookup st.assigned_fgs ch).isSome then acquireFgs now rest st
      else
        match getFunctiongenerator st ch now with
        | (st, .ok _) => acquireFgs now rest st
        | (st, .error e) => (st, .error e)

/-- The `syn` configuration loop: for every participating channel owning a
sync output, program the sync against the channel's generator.  A channel
whose generator entry disappeared (possible if a later acquisition preempted
it) is Python's KeyError at `self._assigned_fgs[chan].fg`. -/
def syncWrites : List Nat → QDacState → QDacState × Except PyErr Unit
  | [], st => (st, .ok ())
  | ch :: rest, st =>
      match dictLookup st.syncoutputs ch with
      | none => syncWrites rest st
      | some sync =>
          match dictLookup st.assigned_fgs ch with
          | none => (st, .error (.keyError keyErrMsg))
          | some g =>
              let sync_duration := pyInt (1000 * st.sync_durationCache ch)
              let sync_delay := pyInt (1000 * st.sync_delayCache ch)
              syncWrites rest (st.write (synCmd sync g.fg sync_delay sync_duration))

/-- The bookkeeping performed for one channel of the programming loop:
record the shared trigger for the channel's generator (when one is used) and
move the cached voltage to the ramp end value. -/
def progStep (trigger ch : Nat) (vend : ℚ) (g : Generator) (st : QDacState) :
    QDacState :=
  let st :=
    if 0 < trigger then
      { st with assigned_triggers := dictInsert st.assigned_triggers g.fg trigger }
    else st
  { st with vcache := updFn st.vcache ch vend }

/-- The `wav`/`fun` message fragment for one channel. -/
def progPiece (slow_chans fast_chans : List Nat)
    (step_length_ms slow_steps fast_steps : Int) (trigger ch : Nat)
    (vstart vend : ℚ) (g : Generator) : String :=
  let amplitude := vend - vstart
  let nsteps := if slow_chans.contains ch then slow_steps else fast_steps
  let repetitions := if fast_chans.contains ch then slow_steps else 1
  let delay :=
    if fast_chans.contains ch then step_length_ms
    else fast_steps * step_length_ms
  wavCmd ch g.fg amplitude vstart ++ ";" ++
    funCmd g.fg delay nsteps repetitions trigger ++ ";"

/-- The programming loop over `(channel, v_start, v_end)` triples: records
the shared trigger for each generator (when a trigger is used), accumulates
the `wav`/`fun` message, and moves each channel's cached voltage to its end
value.  A missing generator entry is Python's KeyError at
`self._assigned_fgs[ch].fg`. -/
def progLoop (slow_chans fast_chans : List Nat)
    (step_length_ms slow_steps fast_steps : Int) (trigger : Nat) :
    List (Nat × ℚ × ℚ) → QDacState → QDacState × Except PyErr String
  | [], st => (st, .ok "")
  | (ch, vstart, vend) :: rest, st =>
      match dictLookup st.assigned_fgs ch with
      | none => (st, .error (.keyError keyErrMsg))
      | some g =>
          match progLoop slow_chans fast_chans step_length_ms slow_steps fast_steps
                  trigger rest (progStep trigger ch vend g st) with
          | (st, .ok msgRest) =>
              (st, .ok (progPiece slow_chans fast_chans step_length_ms slow_steps
                fast_steps trigger ch vstart vend g ++ msgRest))
          | (st, .error e) => (st, .error e)

/-- The final bookkeeping loop `for chan in channellist:
self._assigned_fgs[chan].t_end = time_end`. -/
def setTEnds : List Nat → ℚ → QDacState → QDacState
  | [], _, st => st
  | ch :: rest, tE, st =>
      setTEnds rest tE { st with assigned_fgs := setTEnd1 ch tE st.assigned_fgs }

/-- Embedding of `ramp_voltages_2d`.  `now` is `time.time()` at the end of
the call; the state is returned even on error, matching Python exception
semantics where mutations performed before the raise persist. -/
def ramp_voltages_2d (st : QDacState)
    (slow_chans : List Nat) (slow_vstart slow_vend : List ℚ)
    (fast_chans : List Nat) (fast_vstart fast_vend : List ℚ)
    (step_length : ℚ) (slow_steps fast_steps : Int) (now : ℚ) :
    QDacState × Except PyErr ℚ :=
  let channellist := slow_chans ++ fast_chans
  let v_endlist := slow_vend ++ fast_vend
  let v_startlist := slow_vstart ++ fast_vstart
  let step_length_ms := stepLenMs step_length
  if slow_chans.any (fun ch => fast_chans.contains ch) then
    (st, .error (.valueError overlapMsg))
  else if channellist.length ≠ v_endlist.length then
    (st, .error (.valueError chanVoltLenMsg))
  else
    match acquireFgs now channellist st with
    | (st, .error e) => (st, .error e)
    | (st, .ok ()) =>
        match validateVolts st channellist v_endlist with
        | .error e => (st, .error e)
        | .ok () =>
            match
              (if v_startlist.isEmpty then .ok ()
               else validateVolts st channellist v_startlist) with
            | .error e => (st, .error e)
            | .ok () =>
                let pr1 :=
                  if slow_vstart.isEmpty then getVList slow_chans st
                  else (st, slow_vstart)
                let pr2 :=
                  if fast_vstart.isEmpty then getVList fast_chans pr1.1
                  else (pr1.1, fast_vstart)
                let st := pr2.1
                let v_startlist := pr1.2 ++ pr2.2
                if channellist.length ≠ v_startlist.length then
                  (st, .error (.valueError startLenMsg))
                else
                  match
                    (if channellist.length = 1 then Except.ok 0
                     else
                       match (freeTrigs st.assigned_triggers).head? with
                       | some t => Except.ok t
                       | none => Except.error (PyErr.valueError minEmptyMsg)) with
                  | .error e => (st, .error e)
                  | .ok trigger =>
                      match syncWrites channellist st with
                      | (st, .error e) => (st, .error e)
                      | (st, .ok ()) =>
                          match progLoop slow_chans fast_chans step_length_ms
                                  slow_steps fast_steps trigger
                                  (channellist.zip (v_startlist.zip v_endlist)) st with
                          | (st, .error e) => (st, .error e)
                          | (st, .ok msg) =>
                              let st := st.write (stripLast msg)
                              let st :=
                                if 0 < trigger then st.write (trigCmd trigger) else st
                              let time_ramp : ℚ :=
                                ((slow_steps * fast_steps * step_length_ms : Int) : ℚ)
                                  / 1000
                              let st := setTEnds channellist (time_ramp + now) st
                              (st, .ok time_ramp)

/-- Embedding of `ramp_voltages` (the single-group convenience form). -/
def ramp_voltages (st : QDacState) (channellist : List Nat)
    (v_startlist v_endlist : List ℚ) (ramptime now : ℚ) :
    QDacState × Except PyErr ℚ :=
  let ramptime := if ramptime < mkRat 2 1000 then mkRat 2 1000 else ramptime
  let steps := pyInt (ramptime * 1000)
  ramp_voltages_2d st [] [] [] channellist v_startlist v_endlist (mkRat 1 1000) 1
    steps now

/-- Configuration errors named by the spec's fail-fast taxonomy: overlapping
groups, channel/voltage list length mismatch, invalid channel id,
out-of-range voltage, start-list length mismatch. -/
def isConfigErr : PyErr → Bool
  | .valueError m =>
      (m == overlapMsg) || (m == chanVoltLenMsg) || (m == chanNumMsg) ||
      (m == validatorMsg) || (m == startLenMsg)
  | _ => false

/-- A base session state shared by the concrete examples below: 24 channels,
everything at 0 V, high-voltage mode, calibrated bounds ±9.99 V / ±1.11 V,
no bookkeeping entries. -/
def baseState : QDacState where
  num_chans := 24
  mode_force := false
  vlive := fun _ => 0
  vcache := fun _ => 0
  modeCache := fun _ => Mode.vhigh_ihigh
  vvalsMin := fun _ => -10
  vvalsMax := fun _ => 10
  vrangesMin := fun _ vr => if vr = 0 then -10 else -1
  vrangesMax := fun _ vr => if vr = 0 then 10 else 1
  devGen := fun _ => 0
  slopes := []
  assigned_fgs := []
  assigned_triggers := []
  syncoutputs := []
  syncCache := fun _ => none
  sync_delayCache := fun _ => 0
  sync_durationCache := fun _ => mkRat 1 100
  replies := fun _ => ""
  readPos := 0
  write_response := ""
  writes := []
  warnings := []
  sleeps := []

end QcodesSpec

namespace QcodesSpec

/-! ### Transport lemmas -/

theorem drainReplies_closed (n : Nat) (st : QDacState) (h : 0 < n) :
    drainReplies n st =
      { st with readPos := st.readPos + n,
                write_response := st.replies (st.readPos + n - 1) } := by
  induction n generalizing st with
  | zero => omega
  | succ n ih =>
      cases Nat.eq_zero_or_pos n with
      | inl h0 =>
          subst h0
          show drainReplies 0 _ = _
          simp [drainReplies]
      | inr hpos =>
          show drainReplies n _ = _
          rw [ih _ hpos]
          show ({ st with
                    readPos := st.readPos + 1 + n,
                    write_response := st.replies (st.readPos + 1 + n - 1) } :
                  QDacState) = _
          have e1 : st.readPos + 1 + n = st.readPos + (n + 1) := by omega
          rw [e1]

/-- Closed form of `QDac.write`: log the command, advance the reply cursor by
`count(';') + 1`, retain the last drained line. -/
theorem write_eq (st : QDacState) (cmd : String) :
    st.write cmd =
      { st with writes := st.writes ++ [cmd],
                readPos := st.readPos + (countSemi cmd + 1),
                write_response := st.replies (st.readPos + countSemi cmd) } := by
  unfold QDacState.write
  rw [drainReplies_closed _ _ (by omega)]
  show ({ st with
            writes := st.writes ++ [cmd],
            readPos := st.readPos + (countSemi cmd + 1),
            write_response := st.replies (st.readPos + (countSemi cmd + 1) - 1) } :
          QDacState) = _
  have e : st.readPos + (countSemi cmd + 1) - 1 = st.readPos + countSemi cmd := by omega
  rw [e]

/-- C7: `write cmd` drains exactly `count(';') + 1` reply lines — the cursor
into the pending-reply stream advances by that amount — and retains only the
last drained line (the reply to the final sub-command) in `_write_response`. -/
theorem c7_write_drains (st : QDacState) (cmd : String) :
    (st.write cmd).readPos = st.readPos + (countSemi cmd + 1) ∧
    (st.write cmd).write_response = st.replies (st.readPos + countSemi cmd) ∧
    (st.write cmd).writes = st.writes ++ [cmd] := by
  rw [write_eq]
  exact ⟨rfl, rfl, rfl⟩

/-! ### Dict lemmas -/

theorem dictLookup_nil {α : Type} (k : Nat) :
    dictLookup ([] : List (Nat × α)) k = none := rfl

theorem dictLookup_cons {α : Type} (a : Nat × α) (d : List (Nat × α)) (k : Nat) :
    dictLookup (a :: d) k = if a.1 = k then some a.2 else dictLookup d k := by
  unfold dictLookup
  by_cases h : a.1 = k
  · simp [List.find?, h]
  · simp [List.find?, h]

theorem dictLookup_mapUpdate_self {α : Type} (d : List (Nat × α)) (k : Nat) (v : α) :
    dictLookup (d.map (fun p => if p.1 = k then (k, v) else p)) k =
      (dictLookup d k).map (fun _ => v) := by
  induction d with
  | nil => rfl
  | cons a t ih =>
      by_cases ha : a.1 = k
      · rw [List.map_cons, if_pos ha, dictLookup_cons, dictLookup_cons, if_pos ha]
        simp
      · rw [List.map_cons, if_neg ha, dictLookup_cons, dictLookup_cons, if_neg ha,
            if_neg ha, ih]

theorem dictLookup_mapUpdate_ne {α : Type} (d : List (Nat × α)) (k k' : Nat) (v : α)
    (h : k' ≠ k) :
    dictLookup (d.map (fun p => if p.1 = k then (k, v) else p)) k' = dictLookup d k' := by
  induction d with
  | nil => rfl
  | cons a t ih =>
      by_cases ha : a.1 = k
      · rw [List.map_cons, if_pos ha, dictLookup_cons, dictLookup_cons, ih]
        have h1 : ¬ ((k, v).1 = k') := fun hc => h hc.symm
        have h2 : ¬ (a.1 = k') := by rw [ha]; exact fun hc => h hc.symm
        rw [if_neg h1, if_neg h2]
      · rw [List.map_cons, if_neg ha, dictLookup_cons, dictLookup_cons, ih]

theorem dictLookup_append_right {α : Type} (d₁ d₂ : List (Nat × α)) (k : Nat)
    (h : dictLookup d₁ k = none) :
    dictLookup (d₁ ++ d₂) k = dictLookup d₂ k := by
  induction d₁ with
  | nil => rfl
  | cons a t ih =>
      rw [dictLookup_cons] at h
      by_cases ha : a.1 = k
      · rw [if_pos ha] at h
        exact absurd h (by simp)
      · rw [if_neg ha] at h
        rw [List.cons_append, dictLookup_cons, if_neg ha]
        exact ih h

theorem dictLookup_findSome {α : Type} (d : List (Nat × α)) (k : Nat)
    (h : (d.find? (fun p => p.1 = k)).isSome = true) :
    (dictLookup d k).isSome = true := by
  unfold dictLookup
  cases hf : d.find? (fun p => p.1 = k) with
  | none => rw [hf] at h; simp at h
  | some p => simp

theorem dictLookup_findNone {α : Type} (d : List (Nat × α)) (k : Nat)
    (h : ¬ (d.find? (fun p => p.1 = k)).isSome = true) :
    dictLookup d k = none := by
  unfold dictLookup
  cases hf : d.find? (fun p => p.1 = k) with
  | none => rfl
  | some p => rw [hf] at h; simp at h

theorem dictLookup_insert_self {α : Type} (d : List (Nat × α)) (k : Nat) (v : α) :
    dictLookup (dictInsert d k v) k = some v := by
  unfold dictInsert
  split
  · rename_i hfind
    rw [dictLookup_mapUpdate_self]
    have hs := dictLookup_findSome d k hfind
    cases hl : dictLookup d k with
    | none => rw [hl] at hs; simp at hs
    | some w => simp
  · rename_i hfind
    rw [dictLookup_append_right _ _ _ (dictLookup_findNone d k hfind)]
    rw [dictLookup_cons]
    simp

theorem dictLookup_append_single_ne {α : Type} (d : List (Nat × α)) (k k' : Nat)
    (v : α) (h : k' ≠ k) : dictLookup (d ++ [(k, v)]) k' = dictLookup d k' := by
  induction d with
  | nil =>
      rw [List.nil_append, dictLookup_cons, dictLookup_nil]
      have h1 : ¬ ((k, v).1 = k') := fun hc => h hc.symm
      rw [if_neg h1]
  | cons a t ih =>
      rw [List.cons_append, dictLookup_cons, dictLookup_cons, ih]

theorem dictLookup_insert_ne {α : Type} (d : List (Nat × α)) (k k' : Nat) (v : α)
    (h : k' ≠ k) : dictLookup (dictInsert d k v) k' = dictLookup d k' := by
  unfold dictInsert
  split
  · exact dictLookup_mapUpdate_ne d k k' v h
  · exact dictLookup_append_single_ne d k k' v h

theorem dictLookup_insert_same_val {α : Type} (d : List (Nat × α)) (k k' : Nat) (v : α)
    (h : dictLookup d k = some v) : dictLookup (dictInsert d k' v) k = some v := by
  by_cases hk : k = k'
  · subst hk
    exact dictLookup_insert_self d k v
  · rw [dictLookup_insert_ne d k' k v hk]
    exact h

theorem dictLookup_pop_ne {α : Type} (d : List (Nat × α)) (k k' : Nat) (h : k' ≠ k) :
    dictLookup (dictPop d k) k' = dictLookup d k' := by
  unfold dictPop
  induction d with
  | nil => rfl
  | cons a t ih =>
      by_cases ha : a.1 = k
      · rw [List.filter_cons_of_neg (by simp [ha])]
        rw [dictLookup_cons, if_neg (by rw [ha]; exact fun hc => h hc.symm), ih]
      · rw [List.filter_cons_of_pos (by simp [ha])]
        rw [dictLookup_cons, dictLookup_cons, ih]

theorem dictLookup_setTEnd1_self (d : List (Nat × Generator)) (ch : Nat) (tE : ℚ) :
    dictLookup (setTEnd1 ch tE d) ch =
      (dictLookup d ch).map (fun g => { g with t_end := tE }) := by
  unfold setTEnd1
  induction d with
  | nil => rfl
  | cons a t ih =>
      by_cases ha : a.1 = ch
      · simp [dictLookup_cons, ha, ih]
      · simp [dictLookup_cons, ha, ih]

theorem dictLookup_setTEnd1_ne (d : List (Nat × Generator)) (ch k : Nat) (tE : ℚ)
    (h : k ≠ ch) : dictLookup (setTEnd1 ch tE d) k = dictLookup d k := by
  unfold setTEnd1
  induction d with
  | nil => rfl
  | cons a t ih =>
      by_cases ha : a.1 = ch
      · have hak : ¬ (a.1 = k) := by omega
        simp only [List.map_cons, if_pos ha, dictLookup_cons]
        rw [if_neg hak, if_neg hak, ih]
      · simp only [List.map_cons, if_neg ha, dictLookup_cons]
        by_cases hak : a.1 = k
        · rw [if_pos hak, if_pos hak]
        · rw [if_neg hak, if_neg hak, ih]

end QcodesSpec

namespace QcodesSpec

/-! ### Generator-pool exhaustion (C2) -/

/-- C2: with all 8 generators assigned and no recorded end time within the
2-second reclaim horizon of `now`, requesting a generator raises the
resource-exhaustion `RuntimeError` (whose message instructs the caller to
insert delays or reduce the number of ramped channels), leaving the state —
in particular the sleep log — unchanged: the call fails rather than
blocking. -/
theorem c2_fg_pool_exhaustion (st : QDacState) (chan : Nat) (now : ℚ)
    (hlen : st.assigned_fgs.length = 8)
    (hfar : ∀ p ∈ st.assigned_fgs, now + fgsTimeout ≤ p.2.t_end) :
    getFunctiongenerator st chan now = (st, .error (.runtimeError fgExhaustMsg)) := by
  have hfe : st.assigned_fgs.filter (fun p => p.2.t_end < now + fgsTimeout) = [] := by
    rw [List.filter_eq_nil_iff]
    intro p hp
    simpa using hfar p hp
  unfold getFunctiongenerator
  rw [if_neg (by omega)]
  simp [hfe]

def c2Pool : QDacState :=
  { baseState with
      assigned_fgs := [(1, ⟨1, 100⟩), (2, ⟨2, 100⟩), (3, ⟨3, 100⟩), (4, ⟨4, 100⟩),
                       (5, ⟨5, 100⟩), (6, ⟨6, 100⟩), (7, ⟨7, 100⟩), (8, ⟨8, 100⟩)] }

theorem c2_fg_pool_exhaustion_witness :
    getFunctiongenerator c2Pool 9 0 = (c2Pool, .error (.runtimeError fgExhaustMsg)) :=
  c2_fg_pool_exhaustion c2Pool 9 0 (by rfl)
    (by
      intro p hp
      fin_cases hp <;> norm_num [fgsTimeout])

/-! ### Slope release (C3)

`_setslope(chan, 'Inf')` forces the channel into DC mode and zeroes the
generator's end time, which does make the generator id immediately
reclaimable without sleeping — but the attempted
`self._assigned_triggers.pop(fg)` passes the `Generator` object where the
dict is keyed by integer generator numbers, so it always raises `KeyError`
(silently swallowed) and the trigger binding is NOT dropped. -/

theorem dictLookup_none_of_ne {α : Type} (d : List (Nat × α)) (k : Nat)
    (h : ∀ p ∈ d, p.1 ≠ k) : dictLookup d k = none := by
  induction d with
  | nil => rfl
  | cons a t ih =>
      rw [dictLookup_cons, if_neg (h a (List.mem_cons_self a t))]
      exact ih (fun p hp => h p (List.mem_cons_of_mem a hp))

theorem dictLookup_pop_self {α : Type} (d : List (Nat × α)) (k : Nat) :
    dictLookup (dictPop d k) k = none := by
  unfold dictPop
  apply dictLookup_none_of_ne
  intro p hp
  have hdec := List.of_mem_filter hp
  simpa using hdec

/-- Closed form of `_setslope(chan, 'Inf')` for a channel with no sync
output: force DC mode, zero the generator end time, drop the slope; the
trigger dict is untouched (its pop always dies in a swallowed KeyError). -/
theorem setslope_inf_spec (st : QDacState) (chan : Nat)
    (hlo : 1 ≤ chan) (hhi : chan ≤ st.num_chans)
    (hsync : dictLookup st.syncoutputs chan = none) :
    _setslope st chan none =
      ({ st with
          vcache := updFn st.vcache chan (st.vlive chan),
          writes := st.writes ++ [dcModeCmd chan (st.vlive chan)],
          readPos := st.readPos + (countSemi (dcModeCmd chan (st.vlive chan)) + 1),
          write_response :=
            st.replies (st.readPos + countSemi (dcModeCmd chan (st.vlive chan))),
          assigned_fgs := setTEnd1 chan 0 st.assigned_fgs,
          slopes := dictPop st.slopes chan }, .ok ()) := by
  unfold _setslope
  rw [if_neg (by omega)]
  simp only [vGet, write_eq, hsync]
  simp [hsync]

/-- A full pool in which exactly one assigned generator has been released
(end time 0, every other end time beyond the reclaim horizon) hands that
generator id to the next acquisition immediately — no sleep is recorded —
displacing the released channel. -/
theorem gfg_preempt_released (st : QDacState) (chan newchan : Nat) (g : Generator)
    (pre post : List (Nat × Generator)) (now : ℚ)
    (hsplit : st.assigned_fgs = pre ++ (chan, g) :: post)
    (hzero : g.t_end = 0)
    (hpre : ∀ p ∈ pre, p.1 ≠ chan)
    (hfull : ¬ st.assigned_fgs.length < 8)
    (hothers : ∀ p ∈ pre ++ post, now + fgsTimeout ≤ p.2.t_end)
    (hnow : 0 ≤ now)
    (hne : newchan ≠ chan) :
    getFunctiongenerator st newchan now =
      ({ st with
          assigned_fgs :=
            dictInsert (dictPop st.assigned_fgs chan) newchan ⟨g.fg, tEndDefault⟩,
          writes := st.writes ++ [dcModeCmd chan (st.vcache chan)],
          readPos := st.readPos + (countSemi (dcModeCmd chan (st.vcache chan)) + 1),
          write_response :=
            st.replies (st.readPos + countSemi (dcModeCmd chan (st.vcache chan))) },
       .ok g.fg) ∧
    dictLookup
      (dictInsert (dictPop st.assigned_fgs chan) newchan ⟨g.fg, tEndDefault⟩)
      newchan = some ⟨g.fg, tEndDefault⟩ ∧
    dictLookup
      (dictInsert (dictPop st.assigned_fgs chan) newchan ⟨g.fg, tEndDefault⟩)
      chan = none := by
  have hposnow : (0 : ℚ) < now + fgsTimeout := by
    have : (0 : ℚ) < fgsTimeout := by norm_num [fgsTimeout]
    linarith
  have hfilter : st.assigned_fgs.filter (fun p => p.2.t_end < now + fgsTimeout) =
      [(chan, g)] := by
    rw [hsplit, List.filter_append, List.filter_cons]
    have h1 : List.filter (fun p => decide (p.2.t_end < now + fgsTimeout)) pre = [] := by
      rw [List.filter_eq_nil_iff]
      intro p hp
      simp only [decide_eq_true_eq, not_lt]
      exact hothers p (List.mem_append_left _ hp)
    have h2 : List.filter (fun p => decide (p.2.t_end < now + fgsTimeout)) post = [] := by
      rw [List.filter_eq_nil_iff]
      intro p hp
      simp only [decide_eq_true_eq, not_lt]
      exact hothers p (List.mem_append_right _ hp)
    have h3 : decide ((chan, g).2.t_end < now + fgsTimeout) = true := by
      simp only [decide_eq_true_eq]
      rw [hzero]
      exact hposnow
    rw [h1, h2, h3]
    simp
  have hminq : qMin [g.t_end] = g.t_end := rfl
  have havail : st.assigned_fgs.filter (fun p => p.2.t_end = g.t_end) = [(chan, g)] := by
    rw [hsplit, List.filter_append, List.filter_cons]
    have h1 : List.filter (fun p => decide (p.2.t_end = g.t_end)) pre = [] := by
      rw [List.filter_eq_nil_iff]
      intro p hp
      simp only [decide_eq_true_eq]
      intro hc
      have := hothers p (List.mem_append_left _ hp)
      rw [hc, hzero] at this
      exact absurd this (by linarith)
    have h2 : List.filter (fun p => decide (p.2.t_end = g.t_end)) post = [] := by
      rw [List.filter_eq_nil_iff]
      intro p hp
      simp only [decide_eq_true_eq]
      intro hc
      have := hothers p (List.mem_append_right _ hp)
      rw [hc, hzero] at this
      exact absurd this (by linarith)
    have h3 : decide ((chan, g).2.t_end = g.t_end) = true := by simp
    rw [h1, h2, h3]
    simp
  have hlook : dictLookup st.assigned_fgs chan = some g := by
    rw [hsplit, dictLookup_append_right _ _ _ (dictLookup_none_of_ne pre chan hpre),
        dictLookup_cons]
    simp
  have hnosleep : ¬ (0 < 0 + 1 ∧ now < g.t_end) := by
    rw [hzero]
    rintro ⟨-, hlt⟩
    exact absurd hlt (not_lt.mpr hnow)
  refine ⟨?_, dictLookup_insert_self _ _ _, ?_⟩
  · unfold getFunctiongenerator
    rw [if_neg hfull]
    simp only [hfilter, List.map_cons, List.map_nil]
    rw [hminq]
    simp only [List.length_cons, List.length_nil]
    rw [if_pos (by norm_num : 0 < 0 + 1), havail]
    simp only [List.map_cons, List.map_nil]
    rw [if_neg hnosleep]
    simp only [hlook, Option.getD_some, write_eq]
  · rw [dictLookup_insert_ne _ newchan chan _ (Ne.symm hne)]
    exact dictLookup_pop_self _ _

def c3Pool : QDacState :=
  { baseState with
      assigned_fgs := [(1, ⟨1, 1000⟩), (2, ⟨2, 1000⟩), (3, ⟨3, 1000⟩), (4, ⟨4, 1000⟩),
                       (5, ⟨5, 1000⟩), (6, ⟨6, 1000⟩), (7, ⟨7, 1000⟩), (8, ⟨8, 1000⟩)],
      assigned_triggers := [(1, 3)],
      slopes := [(1, 1)] }

/-- C3 evidence: on channel 1 (generator 1, bound to trigger 3, pool full)
`slope = 'Inf'` issues the DC-mode command, zeroes `t_end`, clears the
slope — but `_assigned_triggers` still holds the binding `1 ↦ 3` (the pop
is keyed by the `Generator` object; its `KeyError` is swallowed).  The
generator id 1 is nevertheless immediately handed to the next acquisition
(for channel 9) with no sleep and no wait-warning, displacing channel 1. -/
theorem c3_setslope_inf_release :
    (_setslope c3Pool 1 none).2 = .ok () ∧
    (_setslope c3Pool 1 none).1.writes = [dcModeCmd 1 0] ∧
    dictLookup (_setslope c3Pool 1 none).1.assigned_fgs 1 = some ⟨1, 0⟩ ∧
    (_setslope c3Pool 1 none).1.assigned_triggers = [(1, 3)] ∧
    (_setslope c3Pool 1 none).1.slopes = [] ∧
    (getFunctiongenerator (_setslope c3Pool 1 none).1 9 0).2 = .ok 1 ∧
    (getFunctiongenerator (_setslope c3Pool 1 none).1 9 0).1.sleeps = [] ∧
    dictLookup (getFunctiongenerator (_setslope c3Pool 1 none).1 9 0).1.assigned_fgs 9
      = some ⟨1, tEndDefault⟩ ∧
    dictLookup (getFunctiongenerator (_setslope c3Pool 1 none).1 9 0).1.assigned_fgs 1
      = none := by
  have hrel := setslope_inf_spec c3Pool 1 (by norm_num) (by norm_num [c3Pool, baseState])
    (by rfl)
  have hacq := gfg_preempt_released (_setslope c3Pool 1 none).1 1 9 ⟨1, 0⟩
    [] [(2, ⟨2, 1000⟩), (3, ⟨3, 1000⟩), (4, ⟨4, 1000⟩),
        (5, ⟨5, 1000⟩), (6, ⟨6, 1000⟩), (7, ⟨7, 1000⟩), (8, ⟨8, 1000⟩)] 0
    (by rw [hrel]; rfl) rfl (by intro p hp; exact absurd hp (List.not_mem_nil p))
    (by rw [hrel]; decide)
    (by
      intro p hp
      fin_cases hp <;> norm_num [fgsTimeout])
    le_rfl (by norm_num)
  refine ⟨by rw [hrel]; try rfl, by rw [hrel]; try rfl, by rw [hrel]; try rfl,
    by rw [hrel]; try rfl, by rw [hrel]; try rfl, by rw [hacq.1]; try rfl, ?_, ?_, ?_⟩
  · rw [hacq.1, hrel]
    try rfl
  · rw [hacq.1]
    exact hacq.2.1
  · rw [hacq.1]
    exact hacq.2.2

/-! ### Mode / range transition (C6) -/

/-- C6: when `set_mode` changes the voltage range, (a) with `mode_force`
unset and the present voltage above the old range's near-zero threshold the
call raises the non-zero-voltage `ValueError` — the only state change being
the cache refresh performed by the `v.get()` read itself — and (b) with
`mode_force` set and the present voltage outside the new range's calibrated
bounds the call succeeds, clips the voltage to those bounds, signals the
clipping warning, and rewrites the channel's validator bounds and cached
voltage accordingly. -/
theorem c6_set_mode_vrange (st : QDacState) (chan : Nat) (new_mode : Mode)
    (hvr : (st.modeCache chan).v ≠ new_mode.v) :
    ((st.mode_force = false ∧
        maxZeroVoltage (st.modeCache chan).v < |st.vlive chan|) →
      _set_mode st chan new_mode =
        ({ st with vcache := updFn st.vcache chan (st.vlive chan) },
         .error (.valueError nonZeroVoltageMsg))) ∧
    (st.mode_force = true →
      (st.vlive chan < st.vrangesMin chan new_mode.v ∨
        st.vrangesMax chan new_mode.v < st.vlive chan) →
      (_set_mode st chan new_mode).2 = .ok () ∧
      (_set_mode st chan new_mode).1.vcache chan =
        (if st.vrangesMax chan new_mode.v < st.vlive chan then
          st.vrangesMax chan new_mode.v
         else st.vrangesMin chan new_mode.v) ∧
      (_set_mode st chan new_mode).1.vvalsMin chan = st.vrangesMin chan new_mode.v ∧
      (_set_mode st chan new_mode).1.vvalsMax chan = st.vrangesMax chan new_mode.v ∧
      (_set_mode st chan new_mode).1.warnings = st.warnings ++ [clipWarnMsg]) := by
  have h1 : ¬ (st.modeCache chan = new_mode) := by
    intro hc
    exact hvr (by rw [hc])
  have h2 : ¬ (new_mode.i ≠ (st.modeCache chan).i ∧ new_mode.v = 0 ∧
      (st.modeCache chan).v = 0) := by
    rintro ⟨-, hnv, hov⟩
    exact hvr (by rw [hnv, hov])
  constructor
  · rintro ⟨hforce, hnz⟩
    simp only [_set_mode, vGet]
    rw [if_neg h1, if_neg h2, if_pos ⟨hforce, hnz⟩]
  · intro hforce hout
    have h3 : ¬ (st.mode_force = false ∧
        maxZeroVoltage (st.modeCache chan).v < |st.vlive chan|) := by
      rintro ⟨hf, -⟩
      rw [hforce] at hf
      exact Bool.noConfusion hf
    simp only [_set_mode, vGet, clipto]
    rw [if_neg h1, if_neg h2, if_neg h3]
    by_cases hclip : st.vrangesMax chan new_mode.v < st.vlive chan
    · rw [if_pos hclip, if_pos hclip]
      simp [write_eq, updFn]
    · rw [if_neg hclip, if_neg hclip]
      have hlt : st.vlive chan < st.vrangesMin chan new_mode.v := by
        cases hout with
        | inl h => exact h
        | inr h => exact absurd h hclip
      rw [if_pos hlt]
      simp [write_eq, updFn]

def c6StA : QDacState := { baseState with vlive := fun _ => 1 }

def c6StB : QDacState := { baseState with vlive := fun _ => 2, mode_force := true }

theorem c6_set_mode_vrange_witness :
    _set_mode c6StA 1 Mode.vlow_ilow =
      ({ c6StA with vcache := updFn c6StA.vcache 1 1 },
       .error (.valueError nonZeroVoltageMsg)) ∧
    (_set_mode c6StB 1 Mode.vlow_ilow).2 = .ok () ∧
    (_set_mode c6StB 1 Mode.vlow_ilow).1.vcache 1 = 1 ∧
    (_set_mode c6StB 1 Mode.vlow_ilow).1.warnings = [clipWarnMsg] := by
  have hb := (c6_set_mode_vrange c6StB 1 Mode.vlow_ilow (by decide)).2 rfl
    (Or.inr (by norm_num [c6StB, baseState, Mode.v]))
  refine ⟨?_, hb.1, ?_, ?_⟩
  · exact (c6_set_mode_vrange c6StA 1 Mode.vlow_ilow (by decide)).1
      ⟨rfl, by norm_num [c6StA, baseState, maxZeroVoltage, Mode.v]⟩
  · have := hb.2.1
    rw [this]
    norm_num [c6StB, baseState, Mode.v]
  · have := hb.2.2.2.2
    rw [this]
    simp [c6StB, baseState]

end QcodesSpec

namespace QcodesSpec

/-! ### Phase-preservation lemmas for the ramp pipeline -/

theorem gfg_triggers (st : QDacState) (chan : Nat) (now : ℚ) :
    ((getFunctiongenerator st chan now).1).assigned_triggers = st.assigned_triggers := by
  unfold getFunctiongenerator
  dsimp only
  split
  · split <;> rfl
  · split
    · simp only [write_eq]
      split <;> rfl
    · split <;> rfl

theorem gfg_writes (st : QDacState) (chan : Nat) (now : ℚ) :
    (getFunctiongenerator st chan now).1.writes = st.writes ∨
    ∃ c v, (getFunctiongenerator st chan now).1.writes = st.writes ++ [dcModeCmd c v] := by
  unfold getFunctiongenerator
  dsimp only
  split
  · split
    · left
      rfl
    · left
      rfl
  · split
    · right
      rename_i oldchan rest heq
      simp only [write_eq]
      split
      · exact ⟨oldchan, _, rfl⟩
      · exact ⟨oldchan, _, rfl⟩
    · left
      split <;> rfl

theorem acquireFgs_triggers (now : ℚ) (l : List Nat) (st : QDacState) :
    ((acquireFgs now l st).1).assigned_triggers = st.assigned_triggers := by
  induction l generalizing st with
  | nil => rfl
  | cons ch rest ih =>
      unfold acquireFgs
      split
      · rfl
      · split
        · exact ih st
        · cases hg : getFunctiongenerator st ch now with
          | mk st2 r =>
              have h2 : st2.assigned_triggers = st.assigned_triggers := by
                have hgt := gfg_triggers st ch now
                rw [hg] at hgt
                exact hgt
              cases r with
              | ok fg =>
                  show (acquireFgs now rest st2).1.assigned_triggers =
                    st.assigned_triggers
                  exact (ih st2).trans h2
              | error e =>
                  exact h2

theorem acquireFgs_writes (now : ℚ) (l : List Nat) (st : QDacState) :
    ∃ ws, ((acquireFgs now l st).1).writes = st.writes ++ ws ∧
      ∀ c ∈ ws, ∃ ch v, c = dcModeCmd ch v := by
  induction l generalizing st with
  | nil => exact ⟨[], by simp [acquireFgs], by simp⟩
  | cons ch rest ih =>
      unfold acquireFgs
      split
      · exact ⟨[], by simp, by simp⟩
      · split
        · exact ih st
        · cases hg : getFunctiongenerator st ch now with
          | mk st2 r =>
              have hw : st2.writes = st.writes ∨
                  ∃ c v, st2.writes = st.writes ++ [dcModeCmd c v] := by
                have := gfg_writes st ch now
                rw [hg] at this
                exact this
              cases r with
              | ok fg =>
                  show ∃ ws, (acquireFgs now rest st2).1.writes = st.writes ++ ws ∧
                    ∀ c ∈ ws, ∃ ch v, c = dcModeCmd ch v
                  obtain ⟨ws, hws, hall⟩ := ih st2
                  cases hw with
                  | inl h0 =>
                      exact ⟨ws, by rw [hws, h0], hall⟩
                  | inr h1 =>
                      obtain ⟨c, v, hcv⟩ := h1
                      refine ⟨[dcModeCmd c v] ++ ws, ?_, ?_⟩
                      · rw [hws, hcv, List.append_assoc]
                      · intro x hx
                        rcases List.mem_append.mp hx with hx1 | hx2
                        · rcases List.mem_singleton.mp hx1 with rfl
                          exact ⟨c, v, rfl⟩
                        · exact hall x hx2
              | error e =>
                  show ∃ ws, st2.writes = st.writes ++ ws ∧
                    ∀ c ∈ ws, ∃ ch v, c = dcModeCmd ch v
                  cases hw with
                  | inl h0 => exact ⟨[], by simp [h0], by simp⟩
                  | inr h1 =>
                      obtain ⟨c, v, hcv⟩ := h1
                      refine ⟨[dcModeCmd c v], hcv, ?_⟩
                      intro x hx
                      rcases List.mem_singleton.mp hx with rfl
                      exact ⟨c, v, rfl⟩

theorem getVList_fields (l : List Nat) (st : QDacState) :
    (getVList l st).1.writes = st.writes ∧
    (getVList l st).1.assigned_triggers = st.assigned_triggers ∧
    (getVList l st).1.assigned_fgs = st.assigned_fgs := by
  induction l generalizing st with
  | nil => exact ⟨rfl, rfl, rfl⟩
  | cons ch rest ih =>
      unfold getVList
      exact ih _

theorem syncWrites_fields (l : List Nat) (st : QDacState) :
    (syncWrites l st).1.assigned_fgs = st.assigned_fgs ∧
    (syncWrites l st).1.assigned_triggers = st.assigned_triggers ∧
    ∃ ws, (syncWrites l st).1.writes = st.writes ++ ws ∧
      ∀ c ∈ ws, ∃ a b d e, c = synCmd a b d e := by
  induction l generalizing st with
  | nil => exact ⟨rfl, rfl, [], by simp [syncWrites], by simp⟩
  | cons ch rest ih =>
      unfold syncWrites
      cases hs : dictLookup st.syncoutputs ch with
      | none => exact ih st
      | some sync =>
          cases hf : dictLookup st.assigned_fgs ch with
          | none => exact ⟨rfl, rfl, [], by simp, by simp⟩
          | some g =>
              have key := ih (st.write
                (synCmd sync g.fg (pyInt (1000 * st.sync_delayCache ch))
                  (pyInt (1000 * st.sync_durationCache ch))))
              obtain ⟨h1, h2, ws, hws, hall⟩ := key
              refine ⟨by rw [h1, write_eq], by rw [h2, write_eq], ?_⟩
              refine ⟨[synCmd sync g.fg (pyInt (1000 * st.sync_delayCache ch))
                  (pyInt (1000 * st.sync_durationCache ch))] ++ ws, ?_, ?_⟩
              · rw [hws, write_eq]
                simp [List.append_assoc]
              · intro x hx
                rcases List.mem_append.mp hx with hx1 | hx2
                · rcases List.mem_singleton.mp hx1 with rfl
                  exact ⟨_, _, _, _, rfl⟩
                · exact hall x hx2

theorem progStep_fields (trig ch : Nat) (ve : ℚ) (g : Generator) (st : QDacState) :
    (progStep trig ch ve g st).assigned_fgs = st.assigned_fgs ∧
    (progStep trig ch ve g st).writes = st.writes ∧
    (trig = 0 → (progStep trig ch ve g st).assigned_triggers = st.assigned_triggers) := by
  unfold progStep
  refine ⟨?_, ?_, ?_⟩
  · split <;> rfl
  · split <;> rfl
  · intro h0
    subst h0
    rfl

theorem progLoop_state (sc fc : List Nat) (slms ss fs : Int) (trig : Nat)
    (entries : List (Nat × ℚ × ℚ)) (st : QDacState) :
    (progLoop sc fc slms ss fs trig entries st).1.assigned_fgs = st.assigned_fgs ∧
    (progLoop sc fc slms ss fs trig entries st).1.writes = st.writes ∧
    (trig = 0 →
      (progLoop sc fc slms ss fs trig entries st).1.assigned_triggers =
        st.assigned_triggers) := by
  induction entries generalizing st with
  | nil => exact ⟨rfl, rfl, fun _ => rfl⟩
  | cons a rest ih =>
      obtain ⟨ch, vs, ve⟩ := a
      unfold progLoop
      split
      · exact ⟨rfl, rfl, fun _ => rfl⟩
      · rename_i g hg
        have hstep := progStep_fields trig ch ve g st
        have hr := ih (progStep trig ch ve g st)
        split
        · rename_i st3 msgRest hrec
          rw [hrec] at hr
          exact ⟨hr.1.trans hstep.1, hr.2.1.trans hstep.2.1,
            fun h0 => (hr.2.2 h0).trans (hstep.2.2 h0)⟩
        · rename_i st3 e hrec
          rw [hrec] at hr
          exact ⟨hr.1.trans hstep.1, hr.2.1.trans hstep.2.1,
            fun h0 => (hr.2.2 h0).trans (hstep.2.2 h0)⟩

theorem progLoop_trigger_persist (sc fc : List Nat) (slms ss fs : Int) (trig : Nat)
    (entries : List (Nat × ℚ × ℚ)) (st : QDacState) (x : Nat)
    (h : dictLookup st.assigned_triggers x = some trig) :
    dictLookup (progLoop sc fc slms ss fs trig entries st).1.assigned_triggers x =
      some trig := by
  induction entries generalizing st with
  | nil => exact h
  | cons a rest ih =>
      obtain ⟨ch, vs, ve⟩ := a
      unfold progLoop
      split
      · exact h
      · rename_i g hg
        have hmid : dictLookup (progStep trig ch ve g st).assigned_triggers x =
            some trig := by
          unfold progStep
          split
          · exact dictLookup_insert_same_val _ _ _ _ h
          · exact h
        have hr := ih (progStep trig ch ve g st) hmid
        split
        · rename_i st3 msgRest hrec
          rw [hrec] at hr
          exact hr
        · rename_i st3 e hrec
          rw [hrec] at hr
          exact hr

theorem progLoop_records (sc fc : List Nat) (slms ss fs : Int) (trig : Nat)
    (entries : List (Nat × ℚ × ℚ)) (st st2 : QDacState) (m : String)
    (hok : progLoop sc fc slms ss fs trig entries st = (st2, .ok m))
    (htrig : 0 < trig) :
    ∀ e ∈ entries, ∃ g, dictLookup st.assigned_fgs e.1 = some g ∧
      dictLookup st2.assigned_triggers g.fg = some trig := by
  induction entries generalizing st st2 m with
  | nil =>
      intro e he
      exact absurd he (List.not_mem_nil e)
  | cons a rest ih =>
      obtain ⟨ch, vs, ve⟩ := a
      unfold progLoop at hok
      cases hl : dictLookup st.assigned_fgs ch with
      | none =>
          rw [hl] at hok
          simp at hok
      | some g =>
          simp only [hl] at hok
          cases hrec : progLoop sc fc slms ss fs trig rest (progStep trig ch ve g st) with
          | mk st3 r =>
              rw [hrec] at hok
              cases r with
              | error e => simp at hok
              | ok msgRest =>
                  simp only [Prod.mk.injEq] at hok
                  obtain ⟨h3, -⟩ := hok
                  subst h3
                  intro e he
                  rcases List.mem_cons.mp he with rfl | hrest
                  · refine ⟨g, hl, ?_⟩
                    have hmid : dictLookup (progStep trig ch ve g st).assigned_triggers
                        g.fg = some trig := by
                      unfold progStep
                      rw [if_pos htrig]
                      exact dictLookup_insert_self _ _ _
                    have := progLoop_trigger_persist sc fc slms ss fs trig rest
                      (progStep trig ch ve g st) g.fg hmid
                    rw [hrec] at this
                    exact this
                  · obtain ⟨g', hg', ht'⟩ := ih (progStep trig ch ve g st) st3 msgRest
                      hrec e hrest
                    refine ⟨g', ?_, ht'⟩
                    rw [← hg']
                    have : (progStep trig ch ve g st).assigned_fgs = st.assigned_fgs :=
                      (progStep_fields trig ch ve g st).1
                    rw [this]

end QcodesSpec

namespace QcodesSpec

/-! ### Command-string discrimination -/

theorem strData_append (a b : String) : (a ++ b).data = a.data ++ b.data := rfl

theorem trigCmd_head (t : Nat) : (trigCmd t).data.head? = some 't' := by
  unfold trigCmd
  rw [strData_append]
  rfl

theorem ne_trigCmd_of_head (s : String) (h : s.data.head? ≠ some 't') (t : Nat) :
    s ≠ trigCmd t := by
  intro he
  rw [he, trigCmd_head t] at h
  exact h rfl

theorem dcModeCmd_head (ch : Nat) (v : ℚ) : (dcModeCmd ch v).data.head? = some 's' := by
  unfold dcModeCmd
  simp only [strData_append]
  rfl

theorem synCmd_head (a b : Nat) (c d : Int) : (synCmd a b c d).data.head? = some 's' := by
  unfold synCmd
  simp only [strData_append]
  rfl

theorem wavCmd_data (ch fg : Nat) (a v : ℚ) :
    ∃ l, (wavCmd ch fg a v).data = 'w' :: l := by
  unfold wavCmd
  simp only [strData_append]
  exact ⟨_, rfl⟩

theorem progPiece_data (sc fc : List Nat) (slms ss fs : Int) (trig ch : Nat)
    (vs ve : ℚ) (g : Generator) :
    ∃ l, (progPiece sc fc slms ss fs trig ch vs ve g).data = 'w' :: l := by
  unfold progPiece wavCmd
  simp only [strData_append]
  exact ⟨_, rfl⟩

theorem stripLast_head (m : String) (c : Char) (hc : m.data.head? = some c)
    (hlen : 2 ≤ m.data.length) : (stripLast m).data.head? = some c := by
  unfold stripLast
  cases hm : m.data with
  | nil =>
      rw [hm] at hc
      cases hc
  | cons a l =>
      cases l with
      | nil =>
          rw [hm] at hlen
          simp at hlen
      | cons b u =>
          rw [hm] at hc
          simp only [List.head?] at hc
          show ((a :: b :: u).dropLast).head? = some c
          rw [List.dropLast_cons₂]
          simpa using hc

theorem stripLast_empty : stripLast "" = "" := rfl

/-! ### Error-shape lemmas for the sync and programming loops -/

theorem syncWrites_err (l : List Nat) (st st2 : QDacState) (e : PyErr)
    (h : syncWrites l st = (st2, .error e)) : e = .keyError keyErrMsg := by
  induction l generalizing st with
  | nil =>
      unfold syncWrites at h
      simp at h
  | cons ch rest ih =>
      unfold syncWrites at h
      cases hs : dictLookup st.syncoutputs ch with
      | none =>
          rw [hs] at h
          exact ih _ h
      | some sync =>
          rw [hs] at h
          cases hf : dictLookup st.assigned_fgs ch with
          | none =>
              rw [hf] at h
              simp only [Prod.mk.injEq] at h
              have h2 := h.2
              injection h2 with h3
              exact h3.symm
          | some g =>
              rw [hf] at h
              exact ih _ h

theorem progLoop_err (sc fc : List Nat) (slms ss fs : Int) (trig : Nat)
    (entries : List (Nat × ℚ × ℚ)) (st st2 : QDacState) (e : PyErr)
    (h : progLoop sc fc slms ss fs trig entries st = (st2, .error e)) :
    e = .keyError keyErrMsg := by
  revert h
  induction entries generalizing st st2 e with
  | nil =>
      intro h
      unfold progLoop at h
      simp at h
  | cons a rest ih =>
      intro h
      obtain ⟨ch, vs, ve⟩ := a
      unfold progLoop at h
      cases hl : dictLookup st.assigned_fgs ch with
      | none =>
          rw [hl] at h
          simp only [Prod.mk.injEq] at h
          have h2 := h.2
          injection h2 with h3
          exact h3.symm
      | some g =>
          simp only [hl] at h
          cases hrec : progLoop sc fc slms ss fs trig rest (progStep trig ch ve g st) with
          | mk st3 r =>
              rw [hrec] at h
              cases r with
              | ok msgRest => simp at h
              | error e2 =>
                  simp only [Prod.mk.injEq] at h
                  have h2 := h.2
                  injection h2 with h3
                  rw [← h3]
                  exact ih _ _ _ hrec

theorem progLoop_ok_present (sc fc : List Nat) (slms ss fs : Int) (trig : Nat)
    (entries : List (Nat × ℚ × ℚ)) (st st2 : QDacState) (m : String)
    (hok : progLoop sc fc slms ss fs trig entries st = (st2, .ok m)) :
    ∀ e ∈ entries, (dictLookup st.assigned_fgs e.1).isSome = true := by
  induction entries generalizing st st2 m with
  | nil =>
      intro e he
      exact absurd he (List.not_mem_nil e)
  | cons a rest ih =>
      obtain ⟨ch, vs, ve⟩ := a
      unfold progLoop at hok
      cases hl : dictLookup st.assigned_fgs ch with
      | none =>
          rw [hl] at hok
          simp at hok
      | some g =>
          simp only [hl] at hok
          cases hrec : progLoop sc fc slms ss fs trig rest (progStep trig ch ve g st) with
          | mk st3 r =>
              rw [hrec] at hok
              cases r with
              | error e2 => simp at hok
              | ok msgRest =>
                  intro e he
                  rcases List.mem_cons.mp he with rfl | hrest
                  · simp [hl]
                  · have := ih (progStep trig ch ve g st) st3 msgRest hrec e hrest
                    rw [(progStep_fields trig ch ve g st).1] at this
                    exact this

theorem progLoop_ok_msg (sc fc : List Nat) (slms ss fs : Int) (trig : Nat)
    (entries : List (Nat × ℚ × ℚ)) (st st2 : QDacState) (m : String)
    (hok : progLoop sc fc slms ss fs trig entries st = (st2, .ok m)) :
    m = "" ∨ ∃ l, m.data = 'w' :: l := by
  cases entries with
  | nil =>
      left
      unfold progLoop at hok
      simp only [Prod.mk.injEq] at hok
      have := hok.2
      injection this with h2
      exact h2.symm
  | cons a rest =>
      right
      obtain ⟨ch, vs, ve⟩ := a
      unfold progLoop at hok
      cases hl : dictLookup st.assigned_fgs ch with
      | none =>
          rw [hl] at hok
          simp at hok
      | some g =>
          simp only [hl] at hok
          cases hrec : progLoop sc fc slms ss fs trig rest (progStep trig ch ve g st) with
          | mk st3 r =>
              rw [hrec] at hok
              cases r with
              | error e2 => simp at hok
              | ok msgRest =>
                  simp only [Prod.mk.injEq] at hok
                  have hm := hok.2
                  injection hm with hm2
                  obtain ⟨l, hl2⟩ := progPiece_data sc fc slms ss fs trig ch vs ve g
                  refine ⟨l ++ msgRest.data, ?_⟩
                  rw [← hm2, strData_append, hl2]
                  rfl

/-! ### Trigger selection -/

theorem freeTrigs_head_pos (triggers : List (Nat × Nat)) (t : Nat)
    (h : (freeTrigs triggers).head? = some t) : 0 < t := by
  have hmem : t ∈ freeTrigs triggers := by
    cases hft : freeTrigs triggers with
    | nil =>
        rw [hft] at h
        cases h
    | cons a l =>
        rw [hft] at h
        injection h with h2
        rw [← h2]
        exact List.mem_cons_self a l
  unfold freeTrigs at hmem
  have hr := (List.mem_filter.mp hmem).1
  have := List.mem_range'_1.mp hr
  omega

/-! ### setTEnds bookkeeping -/

theorem setTEnds_fields (chans : List Nat) (tE : ℚ) (st : QDacState) :
    (setTEnds chans tE st).assigned_triggers = st.assigned_triggers ∧
    (setTEnds chans tE st).writes = st.writes := by
  induction chans generalizing st with
  | nil => exact ⟨rfl, rfl⟩
  | cons ch rest ih =>
      unfold setTEnds
      exact ih _

theorem setTEnds_lookup_not_mem (chans : List Nat) (tE : ℚ) (st : QDacState)
    (ch : Nat) (h : ch ∉ chans) :
    dictLookup (setTEnds chans tE st).assigned_fgs ch = dictLookup st.assigned_fgs ch := by
  revert h
  induction chans generalizing st with
  | nil =>
      intro h
      rfl
  | cons a rest ih =>
      intro h
      unfold setTEnds
      have hae : ch ≠ a := fun hc => h (hc ▸ List.mem_cons_self a rest)
      have hrest : ch ∉ rest := fun hc => h (List.mem_cons_of_mem a hc)
      rw [ih _ hrest]
      show dictLookup (setTEnd1 a tE st.assigned_fgs) ch = dictLookup st.assigned_fgs ch
      exact dictLookup_setTEnd1_ne _ _ _ _ hae

theorem setTEnds_lookup_mem (chans : List Nat) (tE : ℚ) (st : QDacState) (ch : Nat)
    (hmem : ch ∈ chans) (g0 : Generator)
    (hpres : dictLookup st.assigned_fgs ch = some g0) :
    dictLookup (setTEnds chans tE st).assigned_fgs ch = some { g0 with t_end := tE } := by
  revert hmem hpres
  induction chans generalizing st g0 with
  | nil =>
      intro hmem hpres
      exact absurd hmem (List.not_mem_nil ch)
  | cons a rest ih =>
      intro hmem hpres
      unfold setTEnds
      by_cases hae : ch = a
      · subst hae
        have hl2 : dictLookup (setTEnd1 ch tE st.assigned_fgs) ch =
            some { g0 with t_end := tE } := by
          rw [dictLookup_setTEnd1_self, hpres]
          rfl
        by_cases hin : ch ∈ rest
        · exact ih _ { g0 with t_end := tE } hin hl2
        · rw [setTEnds_lookup_not_mem rest tE _ ch hin]
          exact hl2
      · have hl2 : dictLookup (setTEnd1 a tE st.assigned_fgs) ch = some g0 := by
          rw [dictLookup_setTEnd1_ne _ _ _ _ hae]
          exact hpres
        have hin : ch ∈ rest := by
          rcases List.mem_cons.mp hmem with h1 | h2
          · exact absurd h1 hae
          · exact h2
        exact ih _ _ hin hl2

end QcodesSpec

namespace QcodesSpec


theorem getVphaseP (c : Bool) (l : List Nat) (st : QDacState) (vs : List ℚ)
    (stO : QDacState) (out : List ℚ)
    (h : (if c then getVList l st else (st, vs)) = (stO, out)) :
    stO.writes = st.writes ∧ stO.assigned_triggers = st.assigned_triggers ∧
    stO.assigned_fgs = st.assigned_fgs := by
  cases c with
  | false =>
      rw [if_neg (by simp)] at h
      simp only [Prod.mk.injEq] at h
      rw [← h.1]
      exact ⟨rfl, rfl, rfl⟩
  | true =>
      rw [if_pos rfl] at h
      have hf := getVList_fields l st
      rw [h] at hf
      exact hf

/-- C1 (amended): configuration errors do abort `ramp_voltages_2d` before
any waveform-programming, sync-configuration, or trigger write — the only
writes a failing call can have issued are DC-mode preemption commands from
generator acquisition — and the overlap and end-list-length errors are
raised before any state change at all; but later configuration errors
(invalid channel id, out-of-range voltage, start-list length mismatch) may
leave behind bookkeeping changes and preemption writes from the generator
acquisitions performed for channels validated earlier in the loop. -/
theorem c1_ramp2d_failfast (st : QDacState)
    (slow_chans : List Nat) (slow_vstart slow_vend : List ℚ)
    (fast_chans : List Nat) (fast_vstart fast_vend : List ℚ)
    (step_length : ℚ) (slow_steps fast_steps : Int) (now : ℚ)
    (st2 : QDacState) (e : PyErr)
    (herr : ramp_voltages_2d st slow_chans slow_vstart slow_vend fast_chans
      fast_vstart fast_vend step_length slow_steps fast_steps now = (st2, .error e))
    (hcfg : isConfigErr e = true) :
    (∃ ws, st2.writes = st.writes ++ ws ∧ ∀ c ∈ ws, ∃ ch v, c = dcModeCmd ch v) ∧
    ((slow_chans.any (fun ch => fast_chans.contains ch) = true ∨
      (slow_chans ++ fast_chans).length ≠ (slow_vend ++ fast_vend).length) →
      st2 = st) := by
  simp only [ramp_voltages_2d] at herr
  by_cases hov : slow_chans.any (fun ch => fast_chans.contains ch) = true
  · rw [if_pos hov] at herr
    simp only [Prod.mk.injEq] at herr
    exact ⟨⟨[], by simp [← herr.1], by simp⟩, fun _ => herr.1.symm⟩
  · rw [if_neg hov] at herr
    by_cases hlen : (slow_chans ++ fast_chans).length ≠ (slow_vend ++ fast_vend).length
    · rw [if_pos hlen] at herr
      simp only [Prod.mk.injEq] at herr
      exact ⟨⟨[], by simp [← herr.1], by simp⟩, fun _ => herr.1.symm⟩
    · rw [if_neg hlen] at herr
      have hpart2 : (slow_chans.any (fun ch => fast_chans.contains ch) = true ∨
          (slow_chans ++ fast_chans).length ≠ (slow_vend ++ fast_vend).length) →
          st2 = st := by
        intro hd
        rcases hd with h1 | h2
        · exact absurd h1 hov
        · exact absurd h2 hlen
      refine ⟨?_, hpart2⟩
      cases hacq : acquireFgs now (slow_chans ++ fast_chans) st with
      | mk stA racq =>
          simp only [hacq] at herr
          have hWA : ∃ ws, stA.writes = st.writes ++ ws ∧
              ∀ c ∈ ws, ∃ ch v, c = dcModeCmd ch v := by
            have h := acquireFgs_writes now (slow_chans ++ fast_chans) st
            rw [hacq] at h
            exact h
          cases racq with
          | error eA =>
              simp only [Prod.mk.injEq] at herr
              obtain ⟨h1, -⟩ := herr
              rw [← h1]
              exact hWA
          | ok u =>
              cases u
              simp only [] at herr
              cases hv1 : validateVolts stA (slow_chans ++ fast_chans)
                  (slow_vend ++ fast_vend) with
              | error eV =>
                  rw [hv1] at herr
                  simp only [Prod.mk.injEq] at herr
                  obtain ⟨h1, -⟩ := herr
                  rw [← h1]
                  exact hWA
              | ok u2 =>
                  cases u2
                  rw [hv1] at herr
                  simp only [] at herr
                  by_cases hemp : (slow_vstart ++ fast_vstart).isEmpty = true
                  · rw [if_pos hemp] at herr
                    simp only [] at herr
                    cases hpr1 : (if slow_vstart.isEmpty = true then getVList slow_chans stA
                        else (stA, slow_vstart)) with
                    | mk stB1 sv =>
                      simp only [hpr1] at herr
                      cases hpr2 : (if fast_vstart.isEmpty = true then getVList fast_chans stB1
                          else (stB1, fast_vstart)) with
                      | mk stB fv =>
                        simp only [hpr2] at herr
                        have hB1 := getVphaseP _ _ _ _ _ _ hpr1
                        have hB2 := getVphaseP _ _ _ _ _ _ hpr2
                        obtain ⟨wsA, hwsA, hallA⟩ := hWA
                        have hWB : ∃ ws, stB.writes = st.writes ++ ws ∧
                            ∀ c ∈ ws, ∃ ch v, c = dcModeCmd ch v :=
                          ⟨wsA, by rw [hB2.1, hB1.1, hwsA], hallA⟩
                        by_cases hsl : (slow_chans ++ fast_chans).length ≠ (sv ++ fv).length
                        · rw [if_pos hsl] at herr
                          simp only [Prod.mk.injEq] at herr
                          obtain ⟨h1, -⟩ := herr
                          rw [← h1]
                          exact hWB
                        · rw [if_neg hsl] at herr
                          by_cases hone : (slow_chans ++ fast_chans).length = 1
                          · rw [if_pos hone] at herr
                            simp only [] at herr
                            cases hsy : syncWrites (slow_chans ++ fast_chans) stB with
                            | mk stC rsy =>
                                simp only [hsy] at herr
                                cases rsy with
                                | error eS =>
                                    simp only [Prod.mk.injEq] at herr
                                    obtain ⟨-, h2⟩ := herr
                                    injection h2 with h3
                                    rw [← h3, syncWrites_err _ _ _ _ hsy] at hcfg
                                    exact absurd hcfg (by decide)
                                | ok u3 =>
                                    cases u3
                                    simp only [] at herr
                                    cases hpg : progLoop slow_chans fast_chans (stepLenMs step_length)
                                        slow_steps fast_steps 0
                                        ((slow_chans ++ fast_chans).zip ((sv ++ fv).zip (slow_vend ++ fast_vend)))
                                        stC with
                                    | mk stD rpg =>
                                        simp only [hpg] at herr
                                        cases rpg with
                                        | error eP =>
                                            simp only [Prod.mk.injEq] at herr
                                            obtain ⟨-, h2⟩ := herr
                                            injection h2 with h3
                                            rw [← h3, progLoop_err _ _ _ _ _ _ _ _ _ _ hpg] at hcfg
                                            exact absurd hcfg (by decide)
                                        | ok msg =>
                                            simp at herr
                          · rw [if_neg hone] at herr
                            cases hft : (freeTrigs stB.assigned_triggers).head? with
                            | none =>
                                rw [hft] at herr
                                simp only [Prod.mk.injEq] at herr
                                obtain ⟨-, h2⟩ := herr
                                injection h2 with h3
                                rw [← h3] at hcfg
                                exact absurd hcfg (by decide)
                            | some t =>
                                rw [hft] at herr
                                simp only [] at herr
                                cases hsy : syncWrites (slow_chans ++ fast_chans) stB with
                                | mk stC rsy =>
                                    simp only [hsy] at herr
                                    cases rsy with
                                    | error eS =>
                                        simp only [Prod.mk.injEq] at herr
                                        obtain ⟨-, h2⟩ := herr
                                        injection h2 with h3
                                        rw [← h3, syncWrites_err _ _ _ _ hsy] at hcfg
                                        exact absurd hcfg (by decide)
                                    | ok u3 =>
                                        cases u3
                                        simp only [] at herr
                                        cases hpg : progLoop slow_chans fast_chans (stepLenMs step_length)
                                            slow_steps fast_steps t
                                            ((slow_chans ++ fast_chans).zip ((sv ++ fv).zip (slow_vend ++ fast_vend)))
                                            stC with
                                        | mk stD rpg =>
                                            simp only [hpg] at herr
                                            cases rpg with
                                            | error eP =>
                                                simp only [Prod.mk.injEq] at herr
                                                obtain ⟨-, h2⟩ := herr
                                                injection h2 with h3
                                                rw [← h3, progLoop_err _ _ _ _ _ _ _ _ _ _ hpg] at hcfg
                                                exact absurd hcfg (by decide)
                                            | ok msg =>
                                                simp at herr
                  · rw [if_neg hemp] at herr
                    cases hv2 : validateVolts stA (slow_chans ++ fast_chans)
                        (slow_vstart ++ fast_vstart) with
                    | error eV2 =>
                        rw [hv2] at herr
                        simp only [Prod.mk.injEq] at herr
                        obtain ⟨h1, -⟩ := herr
                        rw [← h1]
                        exact hWA
                    | ok u3 =>
                        cases u3
                        rw [hv2] at herr
                        simp only [] at herr
                        cases hpr1 : (if slow_vstart.isEmpty = true then getVList slow_chans stA
                            else (stA, slow_vstart)) with
                        | mk stB1 sv =>
                          simp only [hpr1] at herr
                          cases hpr2 : (if fast_vstart.isEmpty = true then getVList fast_chans stB1
                              else (stB1, fast_vstart)) with
                          | mk stB fv =>
                            simp only [hpr2] at herr
                            have hB1 := getVphaseP _ _ _ _ _ _ hpr1
                            have hB2 := getVphaseP _ _ _ _ _ _ hpr2
                            obtain ⟨wsA, hwsA, hallA⟩ := hWA
                            have hWB : ∃ ws, stB.writes = st.writes ++ ws ∧
                                ∀ c ∈ ws, ∃ ch v, c = dcModeCmd ch v :=
                              ⟨wsA, by rw [hB2.1, hB1.1, hwsA], hallA⟩
                            by_cases hsl : (slow_chans ++ fast_chans).length ≠ (sv ++ fv).length
                            · rw [if_pos hsl] at herr
                              simp only [Prod.mk.injEq] at herr
                              obtain ⟨h1, -⟩ := herr
                              rw [← h1]
                              exact hWB
                            · rw [if_neg hsl] at herr
                              by_cases hone : (slow_chans ++ fast_chans).length = 1
                              · rw [if_pos hone] at herr
                                simp only [] at herr
                                cases hsy : syncWrites (slow_chans ++ fast_chans) stB with
                                | mk stC rsy =>
                                    simp only [hsy] at herr
                                    cases rsy with
                                    | error eS =>
                                        simp only [Prod.mk.injEq] at herr
                                        obtain ⟨-, h2⟩ := herr
                                        injection h2 with h3
                                        rw [← h3, syncWrites_err _ _ _ _ hsy] at hcfg
                                        exact absurd hcfg (by decide)
                                    | ok u3 =>
                                        cases u3
                                        simp only [] at herr
                                        cases hpg : progLoop slow_chans fast_chans (stepLenMs step_length)
                                            slow_steps fast_steps 0
                                            ((slow_chans ++ fast_chans).zip ((sv ++ fv).zip (slow_vend ++ fast_vend)))
                                            stC with
                                        | mk stD rpg =>
                                            simp only [hpg] at herr
                                            cases rpg with
                                            | error eP =>
                                                simp only [Prod.mk.injEq] at herr
                                                obtain ⟨-, h2⟩ := herr
                                                injection h2 with h3
                                                rw [← h3, progLoop_err _ _ _ _ _ _ _ _ _ _ hpg] at hcfg
                                                exact absurd hcfg (by decide)
                                            | ok msg =>
                                                simp at herr
                              · rw [if_neg hone] at herr
                                cases hft : (freeTrigs stB.assigned_triggers).head? with
                                | none =>
                                    rw [hft] at herr
                                    simp only [Prod.mk.injEq] at herr
                                    obtain ⟨-, h2⟩ := herr
                                    injection h2 with h3
                                    rw [← h3] at hcfg
                                    exact absurd hcfg (by decide)
                                | some t =>
                                    rw [hft] at herr
                                    simp only [] at herr
                                    cases hsy : syncWrites (slow_chans ++ fast_chans) stB with
                                    | mk stC rsy =>
                                        simp only [hsy] at herr
                                        cases rsy with
                                        | error eS =>
                                            simp only [Prod.mk.injEq] at herr
                                            obtain ⟨-, h2⟩ := herr
                                            injection h2 with h3
                                            rw [← h3, syncWrites_err _ _ _ _ hsy] at hcfg
                                            exact absurd hcfg (by decide)
                                        | ok u3 =>
                                            cases u3
                                            simp only [] at herr
                                            cases hpg : progLoop slow_chans fast_chans (stepLenMs step_length)
                                                slow_steps fast_steps t
                                                ((slow_chans ++ fast_chans).zip ((sv ++ fv).zip (slow_vend ++ fast_vend)))
                                                stC with
                                            | mk stD rpg =>
                                                simp only [hpg] at herr
                                                cases rpg with
                                                | error eP =>
                                                    simp only [Prod.mk.injEq] at herr
                                                    obtain ⟨-, h2⟩ := herr
                                                    injection h2 with h3
                                                    rw [← h3, progLoop_err _ _ _ _ _ _ _ _ _ _ hpg] at hcfg
                                                    exact absurd hcfg (by decide)
                                                | ok msg =>
                                                    simp at herr


end QcodesSpec

namespace QcodesSpec

/-- C1, counterexample to the claim as stated: a ramp request for channels
`[1, 25]` on a 24-channel unit raises the invalid-channel `ValueError`, yet
the failed call has already acquired (and records) a generator for channel
1 — bookkeeping state IS changed by the failed call. -/
theorem c1_ramp2d_failfast_counterexample :
    (ramp_voltages_2d baseState [] [] [] [1, 25] [] [0, 0] 1 1 1 0).2 =
      .error (.valueError chanNumMsg) ∧
    dictLookup
      (ramp_voltages_2d baseState [] [] [] [1, 25] [] [0, 0] 1 1 1 0).1.assigned_fgs
      1 = some ⟨1, tEndDefault⟩ ∧
    baseState.assigned_fgs = [] :=
  ⟨rfl, rfl, rfl⟩

theorem c1_ramp2d_failfast_witness :
    ramp_voltages_2d baseState [1] [] [0] [1] [] [0] 1 1 1 0 =
      (baseState, .error (.valueError overlapMsg)) ∧
    (∃ ws, baseState.writes = baseState.writes ++ ws ∧
      ∀ c ∈ ws, ∃ ch v, c = dcModeCmd ch v) :=
  ⟨rfl,
   (c1_ramp2d_failfast baseState [1] [] [0] [1] [] [0] 1 1 1 0 baseState
      (.valueError overlapMsg) rfl (by decide)).1⟩

/-! ### The successful ramp path -/

theorem mem_zip_left {α β : Type} (l1 : List α) (l2 : List β) (a : α)
    (h : a ∈ l1) (hlen : l1.length ≤ l2.length) : ∃ b, (a, b) ∈ l1.zip l2 := by
  obtain ⟨i, hi, ha⟩ := List.mem_iff_getElem.mp h
  have hi2 : i < l2.length := lt_of_lt_of_le hi hlen
  have hiz : i < (l1.zip l2).length := by
    rw [List.length_zip]
    omega
  refine ⟨l2[i], List.mem_iff_getElem.mpr ⟨i, hiz, ?_⟩⟩
  rw [List.getElem_zip]
  rw [ha]

end QcodesSpec

namespace QcodesSpec

/-- Specification of the tail of a successful `ramp_voltages_2d` call, in
terms of the intermediate states: `stB` after acquisition and start-voltage
reads, `stC` after sync configuration, `stD` after the programming loop. -/
theorem ramp2d_final_spec (st stB stC stD : QDacState)
    (slow_chans fast_chans : List Nat) (sv fv slow_vend fast_vend : List ℚ)
    (step_length : ℚ) (slow_steps fast_steps : Int) (now : ℚ)
    (trigger : Nat) (msg : String) (st2 : QDacState) (d : ℚ)
    (hWB : ∃ ws, stB.writes = st.writes ++ ws ∧ ∀ c ∈ ws, ∃ ch v, c = dcModeCmd ch v)
    (hTB : stB.assigned_triggers = st.assigned_triggers)
    (hsy : syncWrites (slow_chans ++ fast_chans) stB = (stC, .ok ()))
    (hpg : progLoop slow_chans fast_chans (stepLenMs step_length) slow_steps
      fast_steps trigger
      ((slow_chans ++ fast_chans).zip ((sv ++ fv).zip (slow_vend ++ fast_vend)))
      stC = (stD, .ok msg))
    (hfin : st2 = setTEnds (slow_chans ++ fast_chans)
      (((slow_steps * fast_steps * stepLenMs step_length : Int) : ℚ) / 1000 + now)
      (if 0 < trigger then (stD.write (stripLast msg)).write (trigCmd trigger)
       else stD.write (stripLast msg)))
    (hd : d = ((slow_steps * fast_steps * stepLenMs step_length : Int) : ℚ) / 1000)
    (hstart : (slow_chans ++ fast_chans).length = (sv ++ fv).length)
    (hend : (slow_chans ++ fast_chans).length = (slow_vend ++ fast_vend).length)
    (htrigsel : (trigger = 0 ∧ (slow_chans ++ fast_chans).length = 1) ∨
      ((freeTrigs st.assigned_triggers).head? = some trigger ∧
        (slow_chans ++ fast_chans).length ≠ 1)) :
    d = ((slow_steps * fast_steps * stepLenMs step_length : Int) : ℚ) / 1000 ∧
    (∀ ch ∈ slow_chans ++ fast_chans, ∃ g,
      dictLookup st2.assigned_fgs ch = some g ∧ g.t_end = d + now) ∧
    ∃ wsAS m,
      ((slow_chans ++ fast_chans).length = 1 → trigger = 0) ∧
      ((slow_chans ++ fast_chans).length ≠ 1 →
        (freeTrigs st.assigned_triggers).head? = some trigger ∧ 0 < trigger) ∧
      st2.writes = st.writes ++ wsAS ++ [stripLast m] ++
        (if 0 < trigger then [trigCmd trigger] else []) ∧
      (∀ c ∈ wsAS, (∃ ch v, c = dcModeCmd ch v) ∨ (∃ a b dd de, c = synCmd a b dd de)) ∧
      (m = "" ∨ ∃ l, m.data = 'w' :: l) ∧
      (trigger = 0 → st2.assigned_triggers = st.assigned_triggers) ∧
      (0 < trigger → ∀ ch ∈ slow_chans ++ fast_chans, ∃ g,
        dictLookup st2.assigned_fgs ch = some g ∧
        dictLookup st2.assigned_triggers g.fg = some trigger) := by
  obtain ⟨wsA, hwsA, hallA⟩ := hWB
  have hsyF := syncWrites_fields (slow_chans ++ fast_chans) stB
  rw [hsy] at hsyF
  obtain ⟨hCfgs0, hCtrig0, wsS, hwsS0, hallS⟩ := hsyF
  have hCfgs : stC.assigned_fgs = stB.assigned_fgs := hCfgs0
  have hCtrig : stC.assigned_triggers = stB.assigned_triggers := hCtrig0
  have hwsS : stC.writes = stB.writes ++ wsS := hwsS0
  have hpgF := progLoop_state slow_chans fast_chans (stepLenMs step_length)
    slow_steps fast_steps trigger
    ((slow_chans ++ fast_chans).zip ((sv ++ fv).zip (slow_vend ++ fast_vend))) stC
  rw [hpg] at hpgF
  obtain ⟨hDfgs0, hDw0, hDtr0⟩ := hpgF
  have hDfgs : stD.assigned_fgs = stC.assigned_fgs := hDfgs0
  have hDw : stD.writes = stC.writes := hDw0
  have hDtr : trigger = 0 → stD.assigned_triggers = stC.assigned_triggers :=
    fun h0 => hDtr0 h0
  have hzlen : (slow_chans ++ fast_chans).length ≤
      ((sv ++ fv).zip (slow_vend ++ fast_vend)).length := by
    rw [List.length_zip]
    omega
  -- the state whose t_end entries get stamped
  have hstE_fgs : (if 0 < trigger then
      (stD.write (stripLast msg)).write (trigCmd trigger)
      else stD.write (stripLast msg)).assigned_fgs = stC.assigned_fgs := by
    split <;> simp [write_eq, hDfgs]
  have hstE_trig : (if 0 < trigger then
      (stD.write (stripLast msg)).write (trigCmd trigger)
      else stD.write (stripLast msg)).assigned_triggers = stD.assigned_triggers := by
    split <;> simp [write_eq]
  have hstE_w : (if 0 < trigger then
      (stD.write (stripLast msg)).write (trigCmd trigger)
      else stD.write (stripLast msg)).writes = stD.writes ++ [stripLast msg] ++
        (if 0 < trigger then [trigCmd trigger] else []) := by
    by_cases hp : 0 < trigger
    · rw [if_pos hp, if_pos hp]
      simp [write_eq]
    · rw [if_neg hp, if_neg hp]
      simp [write_eq]
  have hst2_trig : st2.assigned_triggers = stD.assigned_triggers := by
    rw [hfin, (setTEnds_fields _ _ _).1, hstE_trig]
  refine ⟨hd, ?_, wsA ++ wsS, msg, ?_, ?_, ?_, ?_, ?_, ?_, ?_⟩
  · intro ch hch
    obtain ⟨b, hb⟩ := mem_zip_left _ _ ch hch hzlen
    have hpres := progLoop_ok_present _ _ _ _ _ _ _ _ _ _ hpg (ch, b) hb
    obtain ⟨g0, hg0⟩ := Option.isSome_iff_exists.mp hpres
    have hpresE : dictLookup (if 0 < trigger then
        (stD.write (stripLast msg)).write (trigCmd trigger)
        else stD.write (stripLast msg)).assigned_fgs ch = some g0 := by
      rw [hstE_fgs]
      exact hg0
    refine ⟨{ g0 with t_end := d + now }, ?_, rfl⟩
    rw [hfin, hd]
    exact setTEnds_lookup_mem _ _ _ ch hch g0 hpresE
  · intro h1
    rcases htrigsel with ⟨h0, -⟩ | ⟨-, hne⟩
    · exact h0
    · exact absurd h1 hne
  · intro hne
    rcases htrigsel with ⟨-, h1⟩ | ⟨hf, -⟩
    · exact absurd h1 hne
    · exact ⟨hf, freeTrigs_head_pos _ _ hf⟩
  · rw [hfin, (setTEnds_fields _ _ _).2, hstE_w, hDw, hwsS, hwsA]
    simp [List.append_assoc]
  · intro c hc
    rcases List.mem_append.mp hc with h1 | h2
    · exact Or.inl (hallA c h1)
    · exact Or.inr (hallS c h2)
  · exact progLoop_ok_msg _ _ _ _ _ _ _ _ _ _ hpg
  · intro h0
    rw [hst2_trig, hDtr h0, hCtrig, hTB]
  · intro hp ch hch
    obtain ⟨b, hb⟩ := mem_zip_left _ _ ch hch hzlen
    obtain ⟨g, hg, htg⟩ := progLoop_records _ _ _ _ _ _ _ _ _ _ hpg hp (ch, b) hb
    have hpresE : dictLookup (if 0 < trigger then
        (stD.write (stripLast msg)).write (trigCmd trigger)
        else stD.write (stripLast msg)).assigned_fgs ch = some g := by
      rw [hstE_fgs]
      exact hg
    refine ⟨{ g with t_end := d + now }, ?_, ?_⟩
    · rw [hfin, hd]
      exact setTEnds_lookup_mem _ _ _ ch hch g hpresE
    · show dictLookup st2.assigned_triggers g.fg = some trigger
      rw [hst2_trig]
      exact htg

end QcodesSpec

namespace QcodesSpec

/-- Full specification of a successful `ramp_voltages_2d` call: the returned
duration, the recorded generator end times, the trigger-selection policy,
and the shape and order of the device writes. -/
theorem ramp2d_ok_spec (st : QDacState)
    (slow_chans : List Nat) (slow_vstart slow_vend : List ℚ)
    (fast_chans : List Nat) (fast_vstart fast_vend : List ℚ)
    (step_length : ℚ) (slow_steps fast_steps : Int) (now : ℚ)
    (st2 : QDacState) (d : ℚ)
    (hok : ramp_voltages_2d st slow_chans slow_vstart slow_vend fast_chans
      fast_vstart fast_vend step_length slow_steps fast_steps now = (st2, .ok d)) :
    d = ((slow_steps * fast_steps * stepLenMs step_length : Int) : ℚ) / 1000 ∧
    (∀ ch ∈ slow_chans ++ fast_chans, ∃ g,
      dictLookup st2.assigned_fgs ch = some g ∧ g.t_end = d + now) ∧
    ∃ trigger wsAS m,
      ((slow_chans ++ fast_chans).length = 1 → trigger = 0) ∧
      ((slow_chans ++ fast_chans).length ≠ 1 →
        (freeTrigs st.assigned_triggers).head? = some trigger ∧ 0 < trigger) ∧
      st2.writes = st.writes ++ wsAS ++ [stripLast m] ++
        (if 0 < trigger then [trigCmd trigger] else []) ∧
      (∀ c ∈ wsAS, (∃ ch v, c = dcModeCmd ch v) ∨ ∃ a b dd de, c = synCmd a b dd de) ∧
      (m = "" ∨ ∃ l, m.data = 'w' :: l) ∧
      (trigger = 0 → st2.assigned_triggers = st.assigned_triggers) ∧
      (0 < trigger → ∀ ch ∈ slow_chans ++ fast_chans, ∃ g,
        dictLookup st2.assigned_fgs ch = some g ∧
        dictLookup st2.assigned_triggers g.fg = some trigger) := by
  simp only [ramp_voltages_2d] at hok
  by_cases hov : slow_chans.any (fun ch => fast_chans.contains ch) = true
  · rw [if_pos hov] at hok
    simp at hok
  · rw [if_neg hov] at hok
    by_cases hlen : (slow_chans ++ fast_chans).length ≠ (slow_vend ++ fast_vend).length
    · rw [if_pos hlen] at hok
      simp at hok
    · rw [if_neg hlen] at hok
      have hendlen : (slow_chans ++ fast_chans).length =
          (slow_vend ++ fast_vend).length := not_ne_iff.mp hlen
      cases hacq : acquireFgs now (slow_chans ++ fast_chans) st with
      | mk stA racq =>
          simp only [hacq] at hok
          have hTA : stA.assigned_triggers = st.assigned_triggers := by
            have h := acquireFgs_triggers now (slow_chans ++ fast_chans) st
            rw [hacq] at h
            exact h
          have hWA : ∃ ws, stA.writes = st.writes ++ ws ∧
              ∀ c ∈ ws, ∃ ch v, c = dcModeCmd ch v := by
            have h := acquireFgs_writes now (slow_chans ++ fast_chans) st
            rw [hacq] at h
            exact h
          cases racq with
          | error eA => simp at hok
          | ok u =>
              cases u
              simp only [] at hok
              cases hv1 : validateVolts stA (slow_chans ++ fast_chans)
                  (slow_vend ++ fast_vend) with
              | error eV =>
                  rw [hv1] at hok
                  simp at hok
              | ok u2 =>
                  cases u2
                  rw [hv1] at hok
                  simp only [] at hok
                  by_cases hemp : (slow_vstart ++ fast_vstart).isEmpty = true
                  · rw [if_pos hemp] at hok
                    simp only [] at hok
                    cases hpr1 : (if slow_vstart.isEmpty = true then getVList slow_chans stA
                        else (stA, slow_vstart)) with
                    | mk stB1 sv =>
                      simp only [hpr1] at hok
                      cases hpr2 : (if fast_vstart.isEmpty = true then getVList fast_chans stB1
                          else (stB1, fast_vstart)) with
                      | mk stB fv =>
                        simp only [hpr2] at hok
                        have hB1 := getVphaseP _ _ _ _ _ _ hpr1
                        have hB2 := getVphaseP _ _ _ _ _ _ hpr2
                        obtain ⟨wsA, hwsA, hallA⟩ := hWA
                        have hWB : ∃ ws, stB.writes = st.writes ++ ws ∧
                            ∀ c ∈ ws, ∃ ch v, c = dcModeCmd ch v :=
                          ⟨wsA, by rw [hB2.1, hB1.1, hwsA], hallA⟩
                        have hTBeq : stB.assigned_triggers = st.assigned_triggers := by
                          rw [hB2.2.1, hB1.2.1, hTA]
                        by_cases hsl : (slow_chans ++ fast_chans).length ≠ (sv ++ fv).length
                        · rw [if_pos hsl] at hok
                          simp at hok
                        · rw [if_neg hsl] at hok
                          have hstart : (slow_chans ++ fast_chans).length = (sv ++ fv).length :=
                            not_ne_iff.mp hsl
                          by_cases hone : (slow_chans ++ fast_chans).length = 1
                          · rw [if_pos hone] at hok
                            simp only [] at hok
                            cases hsy : syncWrites (slow_chans ++ fast_chans) stB with
                            | mk stC rsy =>
                                simp only [hsy] at hok
                                cases rsy with
                                | error eS => simp at hok
                                | ok u4 =>
                                    cases u4
                                    simp only [] at hok
                                    cases hpg : progLoop slow_chans fast_chans (stepLenMs step_length)
                                        slow_steps fast_steps 0
                                        ((slow_chans ++ fast_chans).zip ((sv ++ fv).zip (slow_vend ++ fast_vend)))
                                        stC with
                                    | mk stD rpg =>
                                        simp only [hpg] at hok
                                        cases rpg with
                                        | error eP => simp at hok
                                        | ok msg =>
                                            simp only [Prod.mk.injEq] at hok
                                            obtain ⟨h1, h2⟩ := hok
                                            injection h2 with h3
                                            have hfin : st2 = setTEnds (slow_chans ++ fast_chans)
                                                (((slow_steps * fast_steps * stepLenMs step_length : Int) : ℚ)
                                                  / 1000 + now)
                                                (if 0 < 0 then
                                                  (stD.write (stripLast msg)).write (trigCmd 0)
                                                 else stD.write (stripLast msg)) := h1.symm
                                            have hd : d = ((slow_steps * fast_steps *
                                                stepLenMs step_length : Int) : ℚ) / 1000 := h3.symm
                                            have hmain := ramp2d_final_spec st stB stC stD slow_chans fast_chans
                                              sv fv slow_vend fast_vend step_length slow_steps fast_steps now
                                              0 msg st2 d hWB hTBeq hsy hpg hfin hd hstart hendlen (Or.inl ⟨rfl, hone⟩)
                                            exact ⟨hmain.1, hmain.2.1, 0, hmain.2.2⟩
                          · rw [if_neg hone] at hok
                            cases hft : (freeTrigs stB.assigned_triggers).head? with
                            | none =>
                                rw [hft] at hok
                                simp at hok
                            | some t =>
                                rw [hft] at hok
                                simp only [] at hok
                                have hft2 : (freeTrigs st.assigned_triggers).head? = some t := by
                                  rw [← hTBeq]
                                  exact hft
                                cases hsy : syncWrites (slow_chans ++ fast_chans) stB with
                                | mk stC rsy =>
                                    simp only [hsy] at hok
                                    cases rsy with
                                    | error eS => simp at hok
                                    | ok u4 =>
                                        cases u4
                                        simp only [] at hok
                                        cases hpg : progLoop slow_chans fast_chans (stepLenMs step_length)
                                            slow_steps fast_steps t
                                            ((slow_chans ++ fast_chans).zip ((sv ++ fv).zip (slow_vend ++ fast_vend)))
                                            stC with
                                        | mk stD rpg =>
                                            simp only [hpg] at hok
                                            cases rpg with
                                            | error eP => simp at hok
                                            | ok msg =>
                                                simp only [Prod.mk.injEq] at hok
                                                obtain ⟨h1, h2⟩ := hok
                                                injection h2 with h3
                                                have hfin : st2 = setTEnds (slow_chans ++ fast_chans)
                                                    (((slow_steps * fast_steps * stepLenMs step_length : Int) : ℚ)
                                                      / 1000 + now)
                                                    (if 0 < t then
                                                      (stD.write (stripLast msg)).write (trigCmd t)
                                                     else stD.write (stripLast msg)) := h1.symm
                                                have hd : d = ((slow_steps * fast_steps *
                                                    stepLenMs step_length : Int) : ℚ) / 1000 := h3.symm
                                                have hmain := ramp2d_final_spec st stB stC stD slow_chans fast_chans
                                                  sv fv slow_vend fast_vend step_length slow_steps fast_steps now
                                                  t msg st2 d hWB hTBeq hsy hpg hfin hd hstart hendlen (Or.inr ⟨hft2, hone⟩)
                                                exact ⟨hmain.1, hmain.2.1, t, hmain.2.2⟩
                  · rw [if_neg hemp] at hok
                    cases hv2 : validateVolts stA (slow_chans ++ fast_chans)
                        (slow_vstart ++ fast_vstart) with
                    | error eV2 =>
                        rw [hv2] at hok
                        simp at hok
                    | ok u3 =>
                        cases u3
                        rw [hv2] at hok
                        simp only [] at hok
                        cases hpr1 : (if slow_vstart.isEmpty = true then getVList slow_chans stA
                            else (stA, slow_vstart)) with
                        | mk stB1 sv =>
                          simp only [hpr1] at hok
                          cases hpr2 : (if fast_vstart.isEmpty = true then getVList fast_chans stB1
                              else (stB1, fast_vstart)) with
                          | mk stB fv =>
                            simp only [hpr2] at hok
                            have hB1 := getVphaseP _ _ _ _ _ _ hpr1
                            have hB2 := getVphaseP _ _ _ _ _ _ hpr2
                            obtain ⟨wsA, hwsA, hallA⟩ := hWA
                            have hWB : ∃ ws, stB.writes = st.writes ++ ws ∧
                                ∀ c ∈ ws, ∃ ch v, c = dcModeCmd ch v :=
                              ⟨wsA, by rw [hB2.1, hB1.1, hwsA], hallA⟩
                            have hTBeq : stB.assigned_triggers = st.assigned_triggers := by
                              rw [hB2.2.1, hB1.2.1, hTA]
                            by_cases hsl : (slow_chans ++ fast_chans).length ≠ (sv ++ fv).length
                            · rw [if_pos hsl] at hok
                              simp at hok
                            · rw [if_neg hsl] at hok
                              have hstart : (slow_chans ++ fast_chans).length = (sv ++ fv).length :=
                                not_ne_iff.mp hsl
                              by_cases hone : (slow_chans ++ fast_chans).length = 1
                              · rw [if_pos hone] at hok
                                simp only [] at hok
                                cases hsy : syncWrites (slow_chans ++ fast_chans) stB with
                                | mk stC rsy =>
                                    simp only [hsy] at hok
                                    cases rsy with
                                    | error eS => simp at hok
                                    | ok u4 =>
                                        cases u4
                                        simp only [] at hok
                                        cases hpg : progLoop slow_chans fast_chans (stepLenMs step_length)
                                            slow_steps fast_steps 0
                                            ((slow_chans ++ fast_chans).zip ((sv ++ fv).zip (slow_vend ++ fast_vend)))
                                            stC with
                                        | mk stD rpg =>
                                            simp only [hpg] at hok
                                            cases rpg with
                                            | error eP => simp at hok
                                            | ok msg =>
                                                simp only [Prod.mk.injEq] at hok
                                                obtain ⟨h1, h2⟩ := hok
                                                injection h2 with h3
                                                have hfin : st2 = setTEnds (slow_chans ++ fast_chans)
                                                    (((slow_steps * fast_steps * stepLenMs step_length : Int) : ℚ)
                                                      / 1000 + now)
                                                    (if 0 < 0 then
                                                      (stD.write (stripLast msg)).write (trigCmd 0)
                                                     else stD.write (stripLast msg)) := h1.symm
                                                have hd : d = ((slow_steps * fast_steps *
                                                    stepLenMs step_length : Int) : ℚ) / 1000 := h3.symm
                                                have hmain := ramp2d_final_spec st stB stC stD slow_chans fast_chans
                                                  sv fv slow_vend fast_vend step_length slow_steps fast_steps now
                                                  0 msg st2 d hWB hTBeq hsy hpg hfin hd hstart hendlen (Or.inl ⟨rfl, hone⟩)
                                                exact ⟨hmain.1, hmain.2.1, 0, hmain.2.2⟩
                              · rw [if_neg hone] at hok
                                cases hft : (freeTrigs stB.assigned_triggers).head? with
                                | none =>
                                    rw [hft] at hok
                                    simp at hok
                                | some t =>
                                    rw [hft] at hok
                                    simp only [] at hok
                                    have hft2 : (freeTrigs st.assigned_triggers).head? = some t := by
                                      rw [← hTBeq]
                                      exact hft
                                    cases hsy : syncWrites (slow_chans ++ fast_chans) stB with
                                    | mk stC rsy =>
                                        simp only [hsy] at hok
                                        cases rsy with
                                        | error eS => simp at hok
                                        | ok u4 =>
                                            cases u4
                                            simp only [] at hok
                                            cases hpg : progLoop slow_chans fast_chans (stepLenMs step_length)
                                                slow_steps fast_steps t
                                                ((slow_chans ++ fast_chans).zip ((sv ++ fv).zip (slow_vend ++ fast_vend)))
                                                stC with
                                            | mk stD rpg =>
                                                simp only [hpg] at hok
                                                cases rpg with
                                                | error eP => simp at hok
                                                | ok msg =>
                                                    simp only [Prod.mk.injEq] at hok
                                                    obtain ⟨h1, h2⟩ := hok
                                                    injection h2 with h3
                                                    have hfin : st2 = setTEnds (slow_chans ++ fast_chans)
                                                        (((slow_steps * fast_steps * stepLenMs step_length : Int) : ℚ)
                                                          / 1000 + now)
                                                        (if 0 < t then
                                                          (stD.write (stripLast msg)).write (trigCmd t)
                                                         else stD.write (stripLast msg)) := h1.symm
                                                    have hd : d = ((slow_steps * fast_steps *
                                                        stepLenMs step_length : Int) : ℚ) / 1000 := h3.symm
                                                    have hmain := ramp2d_final_spec st stB stC stD slow_chans fast_chans
                                                      sv fv slow_vend fast_vend step_length slow_steps fast_steps now
                                                      t msg st2 d hWB hTBeq hsy hpg hfin hd hstart hendlen (Or.inr ⟨hft2, hone⟩)
                                                    exact ⟨hmain.1, hmain.2.1, t, hmain.2.2⟩

end QcodesSpec

namespace QcodesSpec

/-- The head of `freeTrigs` is the lowest free trigger id: the embedding of
`min(self._trigs.difference(set(self._assigned_triggers.values())))`. -/
theorem freeTrigs_head_min (triggers : List (Nat × Nat)) (t : Nat)
    (h : (freeTrigs triggers).head? = some t) :
    ∀ u ∈ freeTrigs triggers, t ≤ u := by
  intro u hu
  have hp : List.Pairwise (fun a b : Nat => a < b) (freeTrigs triggers) := by
    have h9 : List.Pairwise (fun a b : Nat => a < b) (List.range' 1 9) := by decide
    exact h9.filter _
  cases hft : freeTrigs triggers with
  | nil =>
      rw [hft] at h
      cases h
  | cons a l =>
      rw [hft] at h
      injection h with h2
      subst h2
      rw [hft] at hu hp
      rcases List.mem_cons.mp hu with rfl | hl
      · exact Nat.le_refl _
      · exact Nat.le_of_lt (List.rel_of_pairwise_cons hp hl)

/-- The batched programming message (empty, or starting with a `wav` piece)
never coincides with a `trig` command, even after the trailing semicolon is
stripped. -/
theorem stripLast_ne_trigCmd (m : String) (hm : m = "" ∨ ∃ l, m.data = 'w' :: l) :
    ∀ u, stripLast m ≠ trigCmd u := by
  intro u
  rcases hm with rfl | ⟨l, hl⟩
  · rw [stripLast_empty]
    exact ne_trigCmd_of_head "" (by decide) u
  · apply ne_trigCmd_of_head
    cases l with
    | nil =>
        show (String.mk m.data.dropLast).data.head? ≠ some 't'
        rw [hl]
        decide
    | cons b l2 =>
        have h2 : 2 ≤ m.data.length := by
          rw [hl]
          simp only [List.length_cons]
          omega
        rw [stripLast_head m 'w' (by rw [hl]; rfl) h2]
        decide

end QcodesSpec

namespace QcodesSpec

/-- C4: a `ramp_voltages_2d` call with exactly one participating channel uses
trigger id 0 — the triggers table is unchanged and no `trig` command is among
the writes it adds; a call with two or more participating channels selects the
lowest free trigger id, records it for every participating generator, and
fires it with a single `trig` write placed immediately after the batched
waveform-programming write. -/
theorem c4_trigger_policy (st : QDacState)
    (slow_chans : List Nat) (slow_vstart slow_vend : List ℚ)
    (fast_chans : List Nat) (fast_vstart fast_vend : List ℚ)
    (step_length : ℚ) (slow_steps fast_steps : Int) (now : ℚ)
    (st2 : QDacState) (d : ℚ)
    (hok : ramp_voltages_2d st slow_chans slow_vstart slow_vend fast_chans
      fast_vstart fast_vend step_length slow_steps fast_steps now = (st2, .ok d)) :
    ((slow_chans ++ fast_chans).length = 1 →
      st2.assigned_triggers = st.assigned_triggers ∧
      ∃ ws, st2.writes = st.writes ++ ws ∧ ∀ c ∈ ws, ∀ u, c ≠ trigCmd u) ∧
    ((slow_chans ++ fast_chans).length ≠ 1 →
      ∃ t, (freeTrigs st.assigned_triggers).head? = some t ∧ 0 < t ∧
        (∀ u ∈ freeTrigs st.assigned_triggers, t ≤ u) ∧
        (∀ ch ∈ slow_chans ++ fast_chans, ∃ g,
          dictLookup st2.assigned_fgs ch = some g ∧
          dictLookup st2.assigned_triggers g.fg = some t) ∧
        ∃ ws m, st2.writes = st.writes ++ ws ++ [stripLast m] ++ [trigCmd t] ∧
          (∀ c ∈ ws, ∀ u, c ≠ trigCmd u) ∧
          (∀ u, stripLast m ≠ trigCmd u) ∧
          (m = "" ∨ ∃ l, m.data = 'w' :: l)) := by
  obtain ⟨hd, hte, trigger, wsAS, m, h1, h2, hw, hws, hm, htr0, htrp⟩ :=
    ramp2d_ok_spec st slow_chans slow_vstart slow_vend fast_chans fast_vstart
      fast_vend step_length slow_steps fast_steps now st2 d hok
  have hwsne : ∀ c ∈ wsAS, ∀ u, c ≠ trigCmd u := by
    intro c hc u
    rcases hws c hc with ⟨ch, v, rfl⟩ | ⟨a, b, dd, de, rfl⟩
    · exact ne_trigCmd_of_head _ (by rw [dcModeCmd_head]; decide) u
    · exact ne_trigCmd_of_head _ (by rw [synCmd_head]; decide) u
  constructor
  · intro hone
    have ht0 : trigger = 0 := h1 hone
    subst ht0
    refine ⟨htr0 rfl, wsAS ++ [stripLast m], ?_, ?_⟩
    · rw [hw, if_neg (Nat.lt_irrefl 0)]
      simp [List.append_assoc]
    · intro c hc u
      rcases List.mem_append.mp hc with hc1 | hc2
      · exact hwsne c hc1 u
      · have hcm : c = stripLast m := by simpa using hc2
        rw [hcm]
        exact stripLast_ne_trigCmd m hm u
  · intro hone
    obtain ⟨hhd, hpos⟩ := h2 hone
    refine ⟨trigger, hhd, hpos, freeTrigs_head_min st.assigned_triggers trigger hhd,
      htrp hpos, wsAS, m, ?_, hwsne, stripLast_ne_trigCmd m hm, hm⟩
    rw [hw, if_pos hpos]

end QcodesSpec

namespace QcodesSpec

theorem c4_trigger_policy_witness :
    (ramp_voltages_2d baseState [] [] [] [1, 2] [0, 0] [0, 1] 1 1 100 0 =
      ((ramp_voltages_2d baseState [] [] [] [1, 2] [0, 0] [0, 1] 1 1 100 0).1,
        Except.ok (((1 * 100 * stepLenMs 1 : Int) : ℚ) / 1000))) ∧
    ((([] : List Nat) ++ [1, 2]).length ≠ 1 →
      ∃ t, (freeTrigs baseState.assigned_triggers).head? = some t ∧ 0 < t ∧
        (∀ u ∈ freeTrigs baseState.assigned_triggers, t ≤ u) ∧
        (∀ ch ∈ ([] : List Nat) ++ [1, 2], ∃ g,
          dictLookup (ramp_voltages_2d baseState [] [] [] [1, 2] [0, 0] [0, 1]
            1 1 100 0).1.assigned_fgs ch = some g ∧
          dictLookup (ramp_voltages_2d baseState [] [] [] [1, 2] [0, 0] [0, 1]
            1 1 100 0).1.assigned_triggers g.fg = some t) ∧
        ∃ ws m, (ramp_voltages_2d baseState [] [] [] [1, 2] [0, 0] [0, 1]
            1 1 100 0).1.writes =
            baseState.writes ++ ws ++ [stripLast m] ++ [trigCmd t] ∧
          (∀ c ∈ ws, ∀ u, c ≠ trigCmd u) ∧
          (∀ u, stripLast m ≠ trigCmd u) ∧
          (m = "" ∨ ∃ l, m.data = 'w' :: l)) :=
  ⟨rfl,
   (c4_trigger_policy baseState [] [] [] [1, 2] [0, 0] [0, 1] 1 1 100 0
      (ramp_voltages_2d baseState [] [] [] [1, 2] [0, 0] [0, 1] 1 1 100 0).1
      (((1 * 100 * stepLenMs 1 : Int) : ℚ) / 1000) rfl).2⟩

end QcodesSpec

namespace QcodesSpec

/-- The clamped integer step length of the 1 ms step used by `ramp_voltages`
is exactly 1 ms. -/
theorem stepLenMs_one_ms : stepLenMs (mkRat 1 1000) = 1 := by
  unfold stepLenMs
  rw [if_neg (lt_irrefl (mkRat 1 1000 : ℚ))]
  have h : (mkRat 1 1000 : ℚ) * 1000 = 1 := by
    rw [Rat.mkRat_eq_div]
    norm_num
  rw [h]
  unfold pyInt
  rw [if_neg (by norm_num)]
  norm_num

/-- C5: a successful `ramp_voltages_2d` call returns the computed expected
ramp duration `slow_steps * fast_steps * step_length_ms / 1000` — built from
the clamped integer-millisecond step length, computed rather than measured,
as the call returns as soon as the start command is issued — and records
`now + duration` as the expected end time of every participating channel's
generator. -/
theorem c5_ramp_duration (st : QDacState)
    (slow_chans : List Nat) (slow_vstart slow_vend : List ℚ)
    (fast_chans : List Nat) (fast_vstart fast_vend : List ℚ)
    (step_length : ℚ) (slow_steps fast_steps : Int) (now : ℚ)
    (st2 : QDacState) (d : ℚ)
    (hok : ramp_voltages_2d st slow_chans slow_vstart slow_vend fast_chans
      fast_vstart fast_vend step_length slow_steps fast_steps now = (st2, .ok d)) :
    d = ((slow_steps * fast_steps * stepLenMs step_length : Int) : ℚ) / 1000 ∧
    ∀ ch ∈ slow_chans ++ fast_chans, ∃ g,
      dictLookup st2.assigned_fgs ch = some g ∧ g.t_end = d + now := by
  obtain ⟨hd, hte, _⟩ := ramp2d_ok_spec st slow_chans slow_vstart slow_vend
    fast_chans fast_vstart fast_vend step_length slow_steps fast_steps now st2 d hok
  exact ⟨hd, hte⟩

end QcodesSpec

namespace QcodesSpec

end QcodesSpec

namespace QcodesSpec

/-- C10: a `ramp_voltages_2d` call with both channel groups (and all voltage
lists) empty is not rejected: validation passes vacuously, a trigger is still
selected (the channel count 0 is not 1) and fired, the empty programming
message is written as the empty command string — which still drains
`count(';')+1 = 1` reply line — and the call returns
`slow_steps * fast_steps * step_length` while leaving the generator and
trigger bookkeeping untouched. -/
theorem c10_empty_groups (st : QDacState) (step_length : ℚ)
    (slow_steps fast_steps : Int) (now : ℚ) (t : Nat)
    (st2 : QDacState) (r : Except PyErr ℚ)
    (ht : (freeTrigs st.assigned_triggers).head? = some t)
    (hms : ((stepLenMs step_length : Int) : ℚ) = 1000 * step_length)
    (hrun : ramp_voltages_2d st [] [] [] [] [] [] step_length slow_steps
      fast_steps now = (st2, r)) :
    r = .ok ((slow_steps : ℚ) * (fast_steps : ℚ) * step_length) ∧
    st2.writes = st.writes ++ ["", trigCmd t] ∧
    countSemi "" + 1 = 1 ∧
    st2.readPos = st.readPos + 1 + (countSemi (trigCmd t) + 1) ∧
    st2.assigned_fgs = st.assigned_fgs ∧
    st2.assigned_triggers = st.assigned_triggers := by
  have hpos : 0 < t := freeTrigs_head_pos st.assigned_triggers t ht
  simp only [ramp_voltages_2d, List.nil_append, List.append_nil, List.any_nil,
    List.length_nil, List.isEmpty_nil, List.zip_nil_left, acquireFgs,
    validateVolts, getVList, syncWrites, progLoop, setTEnds, stripLast_empty,
    ht, hpos, if_true, if_false, Bool.false_eq_true, ne_eq, zero_ne_one,
    eq_self_iff_true, not_true] at hrun
  simp only [Prod.mk.injEq] at hrun
  obtain ⟨hA, hB⟩ := hrun
  have harg : ((slow_steps * fast_steps * stepLenMs step_length : Int) : ℚ) / 1000 =
      (slow_steps : ℚ) * (fast_steps : ℚ) * step_length := by
    push_cast
    rw [hms]
    ring
  have hsemi : countSemi "" = 0 := rfl
  refine ⟨?_, ?_, rfl, ?_, ?_, ?_⟩
  · rw [← hB, harg]
  · rw [← hA, write_eq, write_eq]
    simp [List.append_assoc]
  · rw [← hA, write_eq, write_eq]
    simp only [hsemi]
  · rw [← hA, write_eq, write_eq]
  · rw [← hA, write_eq, write_eq]

end QcodesSpec

namespace QcodesSpec

theorem c10_empty_groups_witness :
    ((freeTrigs baseState.assigned_triggers).head? = some 1) ∧
    (((stepLenMs (mkRat 1 1000) : Int) : ℚ) = 1000 * mkRat 1 1000) ∧
    ((ramp_voltages_2d baseState [] [] [] [] [] [] (mkRat 1 1000) 10 20 0).2 =
        .ok ((10 : ℚ) * (20 : ℚ) * mkRat 1 1000) ∧
      (ramp_voltages_2d baseState [] [] [] [] [] []
          (mkRat 1 1000) 10 20 0).1.writes =
        baseState.writes ++ ["", trigCmd 1] ∧
      countSemi "" + 1 = 1 ∧
      (ramp_voltages_2d baseState [] [] [] [] [] []
          (mkRat 1 1000) 10 20 0).1.readPos =
        baseState.readPos + 1 + (countSemi (trigCmd 1) + 1) ∧
      (ramp_voltages_2d baseState [] [] [] [] [] []
          (mkRat 1 1000) 10 20 0).1.assigned_fgs = baseState.assigned_fgs ∧
      (ramp_voltages_2d baseState [] [] [] [] [] []
          (mkRat 1 1000) 10 20 0).1.assigned_triggers =
        baseState.assigned_triggers) :=
  ⟨by decide,
   by
     rw [stepLenMs_one_ms, Rat.mkRat_eq_div]
     norm_num,
   c10_empty_groups baseState (mkRat 1 1000) 10 20 0 1
     (ramp_voltages_2d baseState [] [] [] [] [] [] (mkRat 1 1000) 10 20 0).1
     (ramp_voltages_2d baseState [] [] [] [] [] [] (mkRat 1 1000) 10 20 0).2
     (by decide)
     (by
       rw [stepLenMs_one_ms, Rat.mkRat_eq_div]
       norm_num)
     rfl⟩

end QcodesSpec

namespace QcodesSpec

theorem c5_ramp_duration_witness :
    (ramp_voltages baseState [1, 2] [] [0, 1] (mkRat 1 10) 0 =
      ramp_voltages_2d baseState [] [] [] [1, 2] [] [0, 1] (mkRat 1 1000) 1
        (pyInt ((mkRat 1 10 : ℚ) * 1000)) 0) ∧
    (ramp_voltages_2d baseState [] [] [] [1, 2] [] [0, 1] (mkRat 1 1000) 1
        (pyInt ((mkRat 1 10 : ℚ) * 1000)) 0 =
      ((ramp_voltages_2d baseState [] [] [] [1, 2] [] [0, 1] (mkRat 1 1000) 1
          (pyInt ((mkRat 1 10 : ℚ) * 1000)) 0).1,
        Except.ok (((1 * pyInt ((mkRat 1 10 : ℚ) * 1000) *
          stepLenMs (mkRat 1 1000) : Int) : ℚ) / 1000))) ∧
    ((((1 * pyInt ((mkRat 1 10 : ℚ) * 1000) *
          stepLenMs (mkRat 1 1000) : Int) : ℚ) / 1000 =
        ((1 * pyInt ((mkRat 1 10 : ℚ) * 1000) *
          stepLenMs (mkRat 1 1000) : Int) : ℚ) / 1000) ∧
      ∀ ch ∈ ([] : List Nat) ++ [1, 2], ∃ g,
        dictLookup (ramp_voltages_2d baseState [] [] [] [1, 2] [] [0, 1]
            (mkRat 1 1000) 1
            (pyInt ((mkRat 1 10 : ℚ) * 1000)) 0).1.assigned_fgs ch = some g ∧
        g.t_end = ((1 * pyInt ((mkRat 1 10 : ℚ) * 1000) *
          stepLenMs (mkRat 1 1000) : Int) : ℚ) / 1000 + 0) ∧
    pyInt ((mkRat 1 10 : ℚ) * 1000) = 100 ∧
    stepLenMs (mkRat 1 1000) = 1 ∧
    (((1 * pyInt ((mkRat 1 10 : ℚ) * 1000) *
        stepLenMs (mkRat 1 1000) : Int) : ℚ) / 1000 = mkRat 1 10) ∧
    (ramp_voltages baseState [1, 2] [] [0, 1] (mkRat 1 10) 0).1.writes =
      [stripLast
        (wavCmd 1 1 0 0 ++ ";" ++
          funCmd 1 (stepLenMs (mkRat 1 1000))
            (pyInt ((mkRat 1 10 : ℚ) * 1000)) 1 1 ++ ";" ++
          (wavCmd 2 2 1 0 ++ ";" ++
            funCmd 2 (stepLenMs (mkRat 1 1000))
              (pyInt ((mkRat 1 10 : ℚ) * 1000)) 1 1 ++ ";" ++ "")),
       trigCmd 1] := by
  have hpy : pyInt ((mkRat 1 10 : ℚ) * 1000) = 100 := by
    have h : (mkRat 1 10 : ℚ) * 1000 = 100 := by
      rw [Rat.mkRat_eq_div]
      norm_num
    rw [h]
    unfold pyInt
    rw [if_neg (by norm_num)]
    norm_num
  refine ⟨rfl, rfl,
    c5_ramp_duration baseState [] [] [] [1, 2] [] [0, 1] (mkRat 1 1000) 1
      (pyInt ((mkRat 1 10 : ℚ) * 1000)) 0
      (ramp_voltages_2d baseState [] [] [] [1, 2] [] [0, 1] (mkRat 1 1000) 1
        (pyInt ((mkRat 1 10 : ℚ) * 1000)) 0).1
      (((1 * pyInt ((mkRat 1 10 : ℚ) * 1000) *
        stepLenMs (mkRat 1 1000) : Int) : ℚ) / 1000)
      rfl,
    hpy, stepLenMs_one_ms, ?_, ?_⟩
  · rw [hpy, stepLenMs_one_ms, Rat.mkRat_eq_div]
    norm_num
  · have e1 : (0 : ℚ) - 0 = 0 := by norm_num
    have e2 : (1 : ℚ) - 0 = 1 := by norm_num
    have hfin : (ramp_voltages baseState [1, 2] [] [0, 1] (mkRat 1 10) 0).1 =
        setTEnds [1, 2]
          (((1 * pyInt ((mkRat 1 10 : ℚ) * 1000) *
            stepLenMs (mkRat 1 1000) : Int) : ℚ) / 1000 + 0)
          (((progLoop [] [1, 2] (stepLenMs (mkRat 1 1000)) 1
                (pyInt ((mkRat 1 10 : ℚ) * 1000)) 1
                [(1, 0, 0), (2, 0, 1)]
                (getVList [1, 2] (acquireFgs 0 [1, 2] baseState).1).1).1.write
              (stripLast
                (wavCmd 1 1 ((0 : ℚ) - 0) 0 ++ ";" ++
                  funCmd 1 (stepLenMs (mkRat 1 1000))
                    (pyInt ((mkRat 1 10 : ℚ) * 1000)) 1 1 ++ ";" ++
                  (wavCmd 2 2 ((1 : ℚ) - 0) 0 ++ ";" ++
                    funCmd 2 (stepLenMs (mkRat 1 1000))
                      (pyInt ((mkRat 1 10 : ℚ) * 1000)) 1 1 ++ ";" ++ "")))).write
            (trigCmd 1)) := by
      rfl
    rw [hfin]
    rw [(setTEnds_fields [1, 2] _ _).2]
    simp only [write_eq]
    have hPw : (progLoop [] [1, 2] (stepLenMs (mkRat 1 1000)) 1
        (pyInt ((mkRat 1 10 : ℚ) * 1000)) 1
        [(1, 0, 0), (2, 0, 1)]
        (getVList [1, 2] (acquireFgs 0 [1, 2] baseState).1).1).1.writes = [] := rfl
    rw [hPw, e1, e2]
    rfl

end QcodesSpec
